import Mathlib

/-!
Verification of the baton-sql-extension SQL validation engine.

The TypeScript sources under `src/` are embedded shallowly: each rule's
`validate` body, the dispatcher `validateSql`, and the string utilities are
translated into executable Lean definitions.  JavaScript strings are modelled
as Lean `String`s over their character lists (ASCII inputs; UTF-16 surrogate
pairs are out of scope).  The external SQL-to-AST parser (node-sql-parser)
is out of scope per the spec; rules are parameterised by a parse oracle
`Parse`, and a concrete always-throwing oracle stands in where a closed
statement is required.
-/

set_option maxRecDepth 100000

namespace BatonSQL

/-- ASCII lowercasing of one character, as JS `toLowerCase` acts on ASCII. -/
def lcChar (c : Char) : Char :=
  if 'A' ≤ c ∧ c ≤ 'Z' then Char.ofNat (c.toNat + 32) else c

/-- ASCII uppercasing of one character, as JS `toUpperCase` acts on ASCII. -/
def ucChar (c : Char) : Char :=
  if 'a' ≤ c ∧ c ≤ 'z' then Char.ofNat (c.toNat - 32) else c

/-- JS `String.prototype.toLowerCase` (ASCII fragment). -/
def jsLower (s : String) : String := ⟨s.data.map lcChar⟩

/-- JS `String.prototype.toUpperCase` (ASCII fragment). -/
def jsUpper (s : String) : String := ⟨s.data.map ucChar⟩

/-- The JS whitespace class `\s` (ASCII fragment). -/
def isWs (c : Char) : Bool :=
  c = ' ' || c = '\t' || c = '\n' || c = '\r' || c = '\x0b' || c = '\x0c'

/-- JS `String.prototype.trim`. -/
def jsTrim (s : String) : String :=
  ⟨((s.data.dropWhile isWs).reverse.dropWhile isWs).reverse⟩

/-- JS `String.prototype.trimEnd`. -/
def jsTrimEnd (s : String) : String :=
  ⟨(s.data.reverse.dropWhile isWs).reverse⟩

/-- JS `String.prototype.trimStart`. -/
def jsTrimStart (s : String) : String := ⟨s.data.dropWhile isWs⟩

/-- `needle` occurs at the start of `hay` (JS `startsWith` on char lists). -/
def listPrefix : List Char → List Char → Bool
  | [], _ => true
  | _ :: _, [] => false
  | c :: cs, d :: ds => c = d && listPrefix cs ds

/-- Case-insensitive prefix test (for JS regexes with the `i` flag). -/
def listPrefixCI : List Char → List Char → Bool
  | [], _ => true
  | _ :: _, [] => false
  | c :: cs, d :: ds => lcChar c = lcChar d && listPrefixCI cs ds

/-- `needle` occurs somewhere in `hay` (JS `includes` on char lists). -/
def listIncl (needle : List Char) : List Char → Bool
  | [] => listPrefix needle []
  | c :: t => listPrefix needle (c :: t) || listIncl needle t

/-- JS `String.prototype.includes`. -/
def jsIncludes (s sub : String) : Bool := listIncl sub.data s.data

/-- JS `String.prototype.startsWith`. -/
def jsStartsWith (s pre : String) : Bool := listPrefix pre.data s.data

/-- JS `String.prototype.endsWith`. -/
def jsEndsWith (s suf : String) : Bool :=
  listPrefix suf.data.reverse s.data.reverse

/-- Index of the first occurrence of `needle`, if any. -/
def listIndexOf (needle : List Char) : List Char → Option Nat
  | [] => if listPrefix needle [] then some 0 else none
  | c :: t =>
    if listPrefix needle (c :: t) then some 0
    else (listIndexOf needle t).map (· + 1)

/-- JS `String.prototype.indexOf` (−1 when absent). -/
def jsIndexOf (s sub : String) : Int :=
  match listIndexOf sub.data s.data with
  | some n => (n : Int)
  | none => -1

/-- Split on a separator character, as JS `split` with a one-char string. -/
def splitCharAux (sep : Char) : List Char → List Char → List (List Char)
  | [], acc => [acc.reverse]
  | c :: t, acc =>
    if c = sep then acc.reverse :: splitCharAux sep t []
    else splitCharAux sep t (c :: acc)

/-- JS `s.split('\n')`. -/
def jsLines (s : String) : List String :=
  (splitCharAux '\n' s.data []).map (fun l => String.mk l)

/-- JS `s.split(',')`. -/
def jsSplitComma (s : String) : List String :=
  (splitCharAux ',' s.data []).map (fun l => String.mk l)

/-- JS `String.prototype.substring` with its clamping and argument swap. -/
def jsSubstring (s : String) (a b : Int) : String :=
  let n : Int := (s.data.length : Int)
  let a' : Nat := (max 0 (min a n)).toNat
  let b' : Nat := (max 0 (min b n)).toNat
  ⟨(s.data.take (max a' b')).drop (min a' b')⟩

/-- JS `String.prototype.substr s 0 len` (only form used by the source). -/
def jsSubstrTo (s : String) (len : Nat) : String := ⟨s.data.take len⟩

/-- The JS word-character class `\w` = `[A-Za-z0-9_]`. -/
def isWordChar (c : Char) : Bool :=
  ('a' ≤ c && c ≤ 'z') || ('A' ≤ c && c ≤ 'Z') || ('0' ≤ c && c ≤ '9') || c = '_'

/-- First char of an identifier: `[A-Za-z_]`. -/
def isIdentStart (c : Char) : Bool :=
  ('a' ≤ c && c ≤ 'z') || ('A' ≤ c && c ≤ 'Z') || c = '_'

/-- An ASCII digit. -/
def isDigitCh (c : Char) : Bool := '0' ≤ c && c ≤ '9'

/-- First whitespace-delimited token of a string: `s.split(/\s+/)[0]` for the
trimmed strings the source applies it to (empty when `s` starts with
whitespace, matching the leading-empty JS split element). -/
def firstToken (s : String) : String := ⟨s.data.takeWhile (fun c => !isWs c)⟩

/-- Word-splitting scan: the accumulator holds the current word reversed. -/
def wordsAux : List Char → List Char → List (List Char)
  | [], acc => if acc.isEmpty then [] else [acc.reverse]
  | c :: t, acc =>
    if isWs c then
      if acc.isEmpty then wordsAux t [] else acc.reverse :: wordsAux t []
    else wordsAux t (c :: acc)

/-- Split a trimmed string into whitespace-delimited words (JS
`trim().split(/\s+/)` on nonempty trimmed input): its maximal non-whitespace
runs. -/
def wordsOfAux (l : List Char) : List (List Char) := wordsAux l []

/-- Word list of a string. -/
def wordsOf (s : String) : List String :=
  (wordsOfAux s.data).map (fun l => String.mk l)

/-- Collapse each whitespace run to one space: JS `replace(/\s+/g, ' ')`.
The flag records whether the previous character was whitespace (inside a run
already replaced). -/
def squashWsAux : Bool → List Char → List Char
  | _, [] => []
  | prevWs, c :: t =>
    if isWs c then
      if prevWs then squashWsAux true t else ' ' :: squashWsAux true t
    else c :: squashWsAux false t

/-- JS `replace(/\s+/g, ' ')`. -/
def squashWs (l : List Char) : List Char := squashWsAux false l

/-- JS `pattern.replace(/\s+/g, ' ').trim()` as used by the line finder. -/
def jsCollapseWs (s : String) : String := jsTrim ⟨squashWs s.data⟩

/-- Does some suffix of the list satisfy `p` (regex search without anchors)? -/
def anySuffix (p : List Char → Bool) : List Char → Bool
  | [] => p []
  | c :: t => p (c :: t) || anySuffix p t

/-- Regex scan with word-boundary context: does some position (with its
preceding character, `none` at the start) satisfy `p`? -/
def scanWithPrev (p : Option Char → List Char → Bool) : Option Char → List Char → Bool
  | prev, [] => p prev []
  | prev, c :: t => p prev (c :: t) || scanWithPrev p (some c) t

/-- A `\b` boundary holds before the scan position with previous char `prev`. -/
def boundaryBefore (prev : Option Char) : Bool :=
  match prev with
  | none => true
  | some c => !isWordChar c

/-! ## stringUtils.ts -/

/-- Truncation to a signed 32-bit integer (JS `| 0` / `& x` coercion). -/
def toInt32 (n : Int) : Int := ((n + 2147483648) % 4294967296) - 2147483648

/-- One step of the rolling hash: `hash = ((hash << 5) - hash) + char; hash &= hash`. -/
def hashStep (h : Int) (c : Nat) : Int := toInt32 (toInt32 (h * 32) - h + (c : Int))

/-- `hashString` from stringUtils.ts: 32-bit rolling hash rendered in decimal. -/
def hashString (s : String) : String :=
  toString (s.data.foldl (fun h c => hashStep h c.toNat) 0)

/-- Options record of `findLineWithPattern`. -/
structure FindOpts where
  fuzzy : Bool := false
  ignoreCase : Bool := false
  ignoreWhitespace : Bool := false

/-- The per-line hit test of `findLineWithPattern` (the body locals `line`
and the fuzzy/exact branch). -/
def flwpHit (normalizedPattern : String) (opts : FindOpts) (ln : String) : Bool :=
  let l1 := if opts.ignoreCase then jsLower ln else ln
  let l2 := if opts.ignoreWhitespace then jsCollapseWs l1 else l1
  if opts.fuzzy then
    jsIncludes l2 normalizedPattern || jsIncludes normalizedPattern (jsTrim l2)
  else jsIncludes l2 normalizedPattern

/-- The scanning loop of `findLineWithPattern`: `i` is the zero-based index of
the head of `rest`; a hit returns `(i + 1, lines[i])` as the source does. -/
def flwpGo (normalizedPattern : String) (opts : FindOpts) : Nat → List String → Option (Nat × String)
  | _, [] => none
  | i, ln :: rest =>
    if flwpHit normalizedPattern opts ln then some (i + 1, ln)
    else flwpGo normalizedPattern opts (i + 1) rest

/-- `findLineWithPattern` from stringUtils.ts. -/
def findLineWithPattern (text pattern : String) (opts : FindOpts) : Option (Nat × String) :=
  flwpGo (if opts.ignoreWhitespace then jsCollapseWs pattern else pattern) opts 0 (jsLines text)

/-- Inner loop of the Levenshtein matrix fill: given the diagonal value
`diag = matrix[j-1][i-1]`, the value to the left `left = matrix[j][i-1]`, and
the rest of the previous row from column `i` on, produce columns `i, i+1, …`
of row `j` for the characters `arest = a[i-1..]`. -/
def buildRow (bc : Char) : List Char → Nat → Nat → List Nat → List Nat
  | [], _, _, _ => []
  | _ :: _, _, _, [] => []
  | ac :: arest, diag, left, up :: prevRest =>
    let indicator := if ac = bc then 0 else 1
    let v := min (left + 1) (min (up + 1) (diag + indicator))
    v :: buildRow bc arest up v prevRest

/-- One row step: row `j` of the matrix from row `j-1` (`prev`). -/
def levRowStep (a : List Char) (prev : List Nat) (bc : Char) (j : Nat) : List Nat :=
  match prev with
  | [] => []
  | d :: rest => j :: buildRow bc a d j rest

/-- The row loop over the characters of `b` (rows `j = 1 .. b.length`). -/
def levLoop (a : List Char) : List Char → List Nat → Nat → List Nat
  | [], row, _ => row
  | bc :: brest, row, j => levLoop a brest (levRowStep a row bc j) (j + 1)

/-- `levenshteinDistance` from stringUtils.ts: the dynamic-programming matrix,
returning `matrix[b.length][a.length]`. -/
def levenshteinDistance (a b : String) : Nat :=
  if a.data.length = 0 then b.data.length
  else if b.data.length = 0 then a.data.length
  else
    (levLoop a.data b.data (List.range (a.data.length + 1)) 1).getD a.data.length 0

/-- `areWordsSimilar` from stringUtils.ts (its default threshold is 2; the
repository's call sites always pass the threshold explicitly). -/
def areWordsSimilar (word1 word2 : String) (threshold : Nat) : Bool :=
  levenshteinDistance (jsLower word1) (jsLower word2) ≤ threshold

/-! ## sqlUtils.ts -/

/-- Given the characters after a `?` marker, recognise `<name>` where `name`
is one or more non-`>` characters, returning the characters after the
closing `>`; this is the match shape of the regex `\?\<[^>]+\>`. -/
def tokenTail : List Char → Option (List Char)
  | [] => none
  | c :: rest =>
    if c = '<' then
      let nm := rest.takeWhile (fun d => d ≠ '>')
      if nm.isEmpty then none
      else
        match rest.drop nm.length with
        | '>' :: tail => some tail
        | _ => none
    else none

/-- `normalizeSQL` from sqlUtils.ts: the global replace
`sql.replace(/\?\<[^>]+\>/g, '?')` as a left-to-right scan.  The fuel
argument (at least the list length at every call) only discharges
termination; each step consumes at least one character. -/
def normSqlAuxF : Nat → List Char → List Char
  | 0, _ => []
  | _, [] => []
  | f + 1, c :: cs =>
    if c = '?' then
      match tokenTail cs with
      | some tail => '?' :: normSqlAuxF f tail
      | none => c :: normSqlAuxF f cs
    else c :: normSqlAuxF f cs

/-- The normalization scan with its fuel instantiated. -/
def normSqlAux (l : List Char) : List Char := normSqlAuxF l.length l

/-- `normalizeSQL` on strings. -/
def normalizeSQL (s : String) : String := ⟨normSqlAux s.data⟩

/-! ## AST model and parse oracle

The rules probe the third-party parser's untyped AST with JavaScript field
accesses; the AST is modelled as a JSON-like tree and field access, truthiness
and `typeof`-checks mirror the JavaScript semantics. -/

/-- JSON-like value, the shape of a node-sql-parser AST as the rules see it. -/
inductive Jv : Type where
  | null : Jv
  | jbool : Bool → Jv
  | jnum : Int → Jv
  | jstr : String → Jv
  | jarr : List Jv → Jv
  | jobj : List (String × Jv) → Jv

/-- JS property access `v[k]`, `Jv.null` when absent or not an object. -/
def getField (v : Jv) (k : String) : Jv :=
  match v with
  | .jobj fs =>
    match fs.find? (fun f => f.1 == k) with
    | some f => f.2
    | none => .null
  | _ => .null

/-- The JS `in` operator restricted to string keys on objects. -/
def hasField (v : Jv) (k : String) : Bool :=
  match v with
  | .jobj fs => fs.any (fun f => f.1 == k)
  | _ => false

/-- JS truthiness of a value. -/
def truthy : Jv → Bool
  | .null => false
  | .jbool b => b
  | .jnum n => n ≠ 0
  | .jstr s => !s.isEmpty
  | .jarr _ => true
  | .jobj _ => true

/-- JS `typeof v === "object"` (arrays and `null` included). -/
def jsTypeofObject : Jv → Bool
  | .jobj _ => true
  | .jarr _ => true
  | .null => true
  | _ => false

/-- The string content of a value (the rules only read string fields). -/
def jvStr : Jv → String
  | .jstr s => s
  | _ => ""

/-- JS `a || b` on values. -/
def jvOr (a b : Jv) : Jv := if truthy a then a else b

/-- `v` is the string `s` (JS strict equality with a string literal). -/
def jvIsStr (v : Jv) (s : String) : Bool :=
  match v with
  | .jstr t => t == s
  | _ => false

theorem sizeOf_getField_lt {v : Jv} (k : String) (h : truthy (getField v k) = true) :
    sizeOf (getField v k) < sizeOf v := by
  cases v with
  | jobj fs =>
    simp only [getField] at h ⊢
    cases hf : fs.find? (fun f => f.1 == k) with
    | none =>
      rw [hf] at h
      simp [truthy] at h
    | some f =>
      rw [hf] at h
      have hmem : f ∈ fs := List.mem_of_find?_eq_some hf
      have h1 : sizeOf f < sizeOf fs := List.sizeOf_lt_of_mem hmem
      have h2 : sizeOf f.2 < sizeOf f := by
        obtain ⟨a, b⟩ := f
        simp only [Prod.mk.sizeOf_spec]
        omega
      have hgoal : sizeOf f.2 < sizeOf (Jv.jobj fs) := by
        simp only [Jv.jobj.sizeOf_spec]
        omega
      exact hgoal
  | null => simp [getField, truthy] at h
  | jbool b => simp [getField, truthy] at h
  | jnum n => simp [getField, truthy] at h
  | jstr t => simp [getField, truthy] at h
  | jarr xs => simp [getField, truthy] at h

/-! ## validation/types.ts and the parse oracle -/

/-- A line/character position (LSP coordinates), as in types.ts. -/
structure EditPos where
  line : Nat
  character : Nat
deriving DecidableEq, Repr

/-- The `range` of a `TextEdit`; the source's `end` field is `stop` here
(`end` is a Lean keyword). -/
structure EditRange where
  start : EditPos
  stop : EditPos
deriving DecidableEq, Repr

/-- `TextEdit` from types.ts. -/
structure TextEdit where
  range : EditRange
  newText : String
deriving DecidableEq, Repr

/-- `ValidationResult` from types.ts. -/
structure ValidationResult where
  isValid : Bool
  errorMessage : Option String := none
  position : Option Int := none
  lineNumber : Option Nat := none
  suggestedFix : Option TextEdit := none
  replaceText : Option String := none
deriving DecidableEq, Repr

/-- The error thrown by the external parser: a message and an optional
`location.line`. -/
structure ParseErr where
  message : String
  locLine : Option Nat := none

/-- A parse oracle standing in for the out-of-scope node-sql-parser
`Parser.astify`: succeeds with an AST or throws a parse error. -/
def Parse : Type := String → Except ParseErr Jv

/-- `ValidationRule` from types.ts; `validate` may throw (modelled by
`Except`), which the dispatcher catches. -/
structure Rule where
  name : String
  description : String
  validate : String → String → Except String ValidationResult

/-! ## validation/sqlValidator.ts (dispatcher and cache) -/

/-- `result.errorMessage || `Validation failed for rule: ${rule.name}`` —
the JS `||` also replaces an empty string. -/
def defaultedMsg (m : Option String) (ruleName : String) : String :=
  match m with
  | some s => if s.isEmpty then "Validation failed for rule: " ++ ruleName else s
  | none => "Validation failed for rule: " ++ ruleName

/-- One iteration of the dispatcher loop: run a rule inside its try/catch,
keep a failing result tagged with the rule's name, drop everything else. -/
def runRule (r : Rule) (nsql orig : String) : Option (String × ValidationResult) :=
  match r.validate nsql orig with
  | .error _ => none
  | .ok res =>
    if res.isValid then none
    else some (r.name, { res with errorMessage := some (defaultedMsg res.errorMessage r.name) })

/-- The dispatcher loop over a rule list, keeping each failing result tagged
with the name of the rule that produced it. -/
def computeTagged (rules : List Rule) (nsql orig : String) : List (String × ValidationResult) :=
  rules.filterMap (fun r => runRule r nsql orig)

/-- The process-wide validation cache, keyed by `hashString`. -/
def Cache : Type := String → Option (List ValidationResult)

/-- The empty cache. -/
def emptyCache : Cache := fun _ => none

/-- `validateSql` from sqlValidator.ts over an explicit rule list and cache
state: normalize, hash, serve from cache on a hit, otherwise run all rules
and store the collected results. -/
def validateSql (rules : List Rule) (cache : Cache) (sql originalQuery : String) :
    List ValidationResult × Cache :=
  let normalizedSql := normalizeSQL sql
  let cacheKey := hashString (normalizedSql ++ originalQuery)
  match cache cacheKey with
  | some results => (results, cache)
  | none =>
    let results := (computeTagged rules normalizedSql originalQuery).map Prod.snd
    (results, fun k => if k = cacheKey then some results else cache k)

/-- The tagged result list of a fresh (uncached) `validateSql` run. -/
def validateTagged (rules : List Rule) (sql originalQuery : String) :
    List (String × ValidationResult) :=
  computeTagged rules (normalizeSQL sql) originalQuery

/-- The result list of `validateSql` run against an empty cache. -/
def validateSqlFresh (rules : List Rule) (sql originalQuery : String) :
    List ValidationResult :=
  (validateSql rules emptyCache sql originalQuery).1

/-- The findings a given rule (identified by its unique name) contributed to
a fresh `validateSql` run. -/
def findingsOf (rules : List Rule) (sql originalQuery : String) (n : String) :
    List ValidationResult :=
  ((validateTagged rules sql originalQuery).filter (fun e => e.1 == n)).map Prod.snd

/-! ## validation/rules/trailingCommaRule.ts -/

/-- `findNextNonEmptyLine` of trailingCommaRule.ts: first following trimmed
line that is nonempty and not a `--`/`#` comment. -/
def tcScanNext : List String → Option String
  | [] => none
  | l :: rest =>
    let line := jsTrim l
    if !line.isEmpty && !jsStartsWith line "--" && !jsStartsWith line "#" then some line
    else tcScanNext rest

/-- `findNextNonEmptyLine lines startIndex`. -/
def tcNextNonEmpty (lines : List String) (startIndex : Nat) : Option String :=
  tcScanNext (lines.drop startIndex)

/-- Downward scan of `findPreviousNonEmptyLine` over `(index, line)` pairs in
decreasing index order. -/
def tcScanPrev : List (Nat × String) → Option (Nat × String)
  | [] => none
  | (i, l) :: rest =>
    let line := jsTrim l
    if !line.isEmpty && !jsStartsWith line "--" && !jsStartsWith line "#" then some (i, l)
    else tcScanPrev rest

/-- `findPreviousNonEmptyLine lines startIndex` (the start index may be −1). -/
def tcPrevNonEmpty (lines : List String) (startIndex : Int) : Option (Nat × String) :=
  if startIndex < 0 then none
  else tcScanPrev ((lines.take (startIndex.toNat + 1)).enum.reverse)

/-- `l` starts with `w` followed by a `\b` word boundary. -/
def kwBoundary (l w : List Char) : Bool :=
  listPrefix w l &&
    (match l.drop w.length with
     | [] => true
     | c :: _ => !isWordChar c)

/-- `l` starts with `w1`, whitespace, `w2`, then a `\b` word boundary. -/
def kwPairBoundary (l w1 w2 : List Char) : Bool :=
  listPrefix w1 l &&
    (let r := l.drop w1.length
     let ws := r.takeWhile isWs
     !ws.isEmpty && kwBoundary (r.drop ws.length) w2)

/-- The clause-keyword regex
`/^(where|group\s+by|order\s+by|having|limit|offset|union|except|intersect)\b/i`
applied to an already-lowercased line. -/
def tcClauseKw (s : String) : Bool :=
  let l := s.data
  kwBoundary l "where".data || kwPairBoundary l "group".data "by".data ||
  kwPairBoundary l "order".data "by".data || kwBoundary l "having".data ||
  kwBoundary l "limit".data || kwBoundary l "offset".data ||
  kwBoundary l "union".data || kwBoundary l "except".data ||
  kwBoundary l "intersect".data

/-- The trailing-comma diagnostic message ending in the given tail. -/
def tcMsg (tail : String) : String :=
  "Trailing comma found after last column in SELECT statement. Remove the comma before " ++ tail

/-- The line loop of `checkTrailingCommaString`.  The fuel argument (the
number of lines still to visit) only discharges termination. -/
def tcGoF (lines : List String) : Nat → Bool → Nat → Option ValidationResult
  | 0, _, _ => none
  | f + 1, inSel, i =>
    if i < lines.length then
      let line := jsTrim (lines.getD i "")
      let lowerLine := jsLower line
      if line.isEmpty then tcGoF lines f inSel (i + 1)
      else if jsStartsWith lowerLine "select" then
        if jsIncludes lowerLine " from " then
          let selectPart := jsSubstring line 0 (jsIndexOf lowerLine " from ")
          if jsEndsWith (jsTrim selectPart) "," then
            some { isValid := false, errorMessage := some (tcMsg "FROM clause."), lineNumber := some i }
          else tcGoF lines f false (i + 1)
        else if jsEndsWith (jsTrim line) "," then
          match tcNextNonEmpty lines (i + 1) with
          | some nxt =>
            if jsStartsWith (jsTrim (jsLower nxt)) "from" then
              some { isValid := false, errorMessage := some (tcMsg "FROM clause."), lineNumber := some i }
            else tcGoF lines f true (i + 1)
          | none => tcGoF lines f true (i + 1)
        else tcGoF lines f true (i + 1)
      else if inSel && jsStartsWith lowerLine "from" then
        match tcPrevNonEmpty lines ((i : Int) - 1) with
        | some (pi, pl) =>
          if jsEndsWith (jsTrim pl) "," then
            some { isValid := false, errorMessage := some (tcMsg "FROM clause."), lineNumber := some pi }
          else tcGoF lines f false (i + 1)
        | none => tcGoF lines f false (i + 1)
      else if inSel && tcClauseKw lowerLine then
        match tcPrevNonEmpty lines ((i : Int) - 1) with
        | some (pi, pl) =>
          if jsEndsWith (jsTrim pl) "," then
            some { isValid := false, errorMessage := some (tcMsg "the clause."), lineNumber := some pi }
          else tcGoF lines f false (i + 1)
        | none => tcGoF lines f false (i + 1)
      else if inSel && jsEndsWith line "," then
        match tcNextNonEmpty lines (i + 1) with
        | some nxt =>
          let nextLower := jsTrim (jsLower nxt)
          if jsStartsWith nextLower "from" || tcClauseKw nextLower then
            some { isValid := false, errorMessage := some (tcMsg "the next clause."), lineNumber := some i }
          else tcGoF lines f inSel (i + 1)
        | none => tcGoF lines f inSel (i + 1)
      else tcGoF lines f inSel (i + 1)
    else none

/-- The line loop started at index `i`. -/
def tcGo (lines : List String) (inSel : Bool) (i : Nat) : Option ValidationResult :=
  tcGoF lines lines.length inSel i

/-- `checkTrailingCommaString` from trailingCommaRule.ts. -/
def checkTrailingCommaString (sql originalQuery : String) : ValidationResult :=
  if !jsIncludes originalQuery "," then { isValid := true }
  else
    match tcGo (jsLines originalQuery) false 0 with
    | some r => r
    | none => { isValid := true }

/-- `trailingCommaRule`. -/
def trailingCommaRule : Rule where
  name := "trailing-comma"
  description := "Check for trailing commas after the last column in SELECT statements"
  validate := fun sql originalQuery => .ok (checkTrailingCommaString sql originalQuery)

/-! ## validation/rules/missingCommaRule.ts -/

/-- `findNextNonEmptyLine` of missingCommaRule.ts (no comment filtering),
scanning from a start index; returns the trimmed line. -/
def mcScanNext : List String → Option String
  | [] => none
  | l :: rest =>
    let line := jsTrim l
    if !line.isEmpty then some line else mcScanNext rest

/-- `findNextNonEmptyLine lines startIndex`. -/
def mcNextNonEmpty (lines : List String) (startIndex : Nat) : Option String :=
  mcScanNext (lines.drop startIndex)

/-- `looksLikeFROM` from missingCommaRule.ts: the first word is `FROM` or an
edit-distance-2 near-spelling of it. -/
def looksLikeFROM (text : String) : Bool :=
  let firstWord := jsUpper (firstToken text)
  firstWord == "FROM" || areWordsSimilar firstWord "FROM" 2

/-- The character loop tracking parenthesis depth, with its early `break`
once depth returns to zero on a `)`. -/
def parenScan : List Char → Int → Int
  | [], d => d
  | c :: t, d =>
    let d1 := if c = '(' then d + 1 else d
    let d2 := if c = ')' then d1 - 1 else d1
    if d2 = 0 && c = ')' then d2 else parenScan t d2

/-- The missing-comma suggested fix: append a comma at the end of line `pi`. -/
def mcFix (lines : List String) (pi : Nat) : TextEdit :=
  let endOfLine := (jsTrimEnd (lines.getD pi "")).data.length
  { range := { start := { line := pi, character := endOfLine },
               stop := { line := pi, character := endOfLine } },
    newText := "," }

/-- The loop of `checkParenthesizedList`, carrying the parenthesis depth, the
needs-comma flag and the previous line index (−1 initially; the source's
`!previousLineIndex` is true only when that index is 0).  Fuel only
discharges termination. -/
def cplGoF (lines : List String) : Nat → Nat → Int → Bool → Int → Option ValidationResult
  | 0, _, _, _, _ => none
  | f + 1, i, depth, needsComma, prevIdx =>
    if i < lines.length then
      let line := jsTrim (lines.getD i "")
      if line.isEmpty then cplGoF lines f (i + 1) depth needsComma prevIdx
      else
        let d2 := parenScan line.data depth
        if d2 = 0 && jsIncludes line ")" then none
        else if jsIncludes line "(" && prevIdx = 0 then cplGoF lines f (i + 1) d2 needsComma (i : Int)
        else if jsIncludes line ":" && !jsIncludes line "::" then cplGoF lines f (i + 1) d2 needsComma prevIdx
        else if needsComma && !jsEndsWith (jsTrim (lines.getD prevIdx.toNat "")) "," then
          some { isValid := false,
                 errorMessage := some "Missing comma between items in list. Add a comma at the end of this line.",
                 lineNumber := some prevIdx.toNat,
                 suggestedFix := some (mcFix lines prevIdx.toNat) }
        else
          let nextLine := mcNextNonEmpty lines (i + 1)
          let isLastItem := nextLine.isNone || (nextLine.map (fun nl => jsIncludes nl ")")).getD false
          cplGoF lines f (i + 1) d2 (!isLastItem && line.data.length > 0) (i : Int)
    else none

/-- The loop started at line `i`. -/
def cplGo (lines : List String) (i : Nat) (depth : Int) (needsComma : Bool) (prevIdx : Int) :
    Option ValidationResult :=
  cplGoF lines lines.length i depth needsComma prevIdx

/-- `checkParenthesizedList lines startIndex` (`null` is `none`). -/
def checkParenthesizedList (lines : List String) (startIndex : Nat) : Option ValidationResult :=
  cplGo lines startIndex 0 false (-1)

/-- First line index at or after `j` whose line satisfies `p` (fuel only
discharges termination). -/
def findLineFromF (lines : List String) (p : String → Bool) : Nat → Nat → Option Nat
  | 0, _ => none
  | f + 1, j =>
    if j < lines.length then
      if p (lines.getD j "") then some j else findLineFromF lines p f (j + 1)
    else none

/-- First line index at or after `j` whose line satisfies `p`. -/
def findLineFrom (lines : List String) (p : String → Bool) (j : Nat) : Option Nat :=
  findLineFromF lines p lines.length j

/-- The UPDATE…SET assignment loop of missingCommaRule.ts (fuel only
discharges termination). -/
def setGoF (lines : List String) : Nat → Nat → Bool → Int → Option ValidationResult
  | 0, _, _, _ => none
  | f + 1, k, needsComma, prevIdx =>
    if k < lines.length then
      let currentLine := jsTrim (lines.getD k "")
      if currentLine.isEmpty then setGoF lines f (k + 1) needsComma prevIdx
      else
        let currentLower := jsLower currentLine
        if jsStartsWith currentLower "where" || jsStartsWith currentLower "from" then none
        else if needsComma && !jsEndsWith (jsTrim (lines.getD prevIdx.toNat "")) "," then
          some { isValid := false,
                 errorMessage := some "Missing comma between SET assignments. Add a comma at the end of this line.",
                 lineNumber := some prevIdx.toNat,
                 suggestedFix := some (mcFix lines prevIdx.toNat) }
        else
          let nextLine := mcNextNonEmpty lines (k + 1)
          let isLastAssignment := nextLine.isNone ||
            (nextLine.map (fun nl => jsStartsWith (jsLower nl) "where" || jsStartsWith (jsLower nl) "from")).getD false
          setGoF lines f (k + 1) (!isLastAssignment && jsIncludes currentLine "=") (k : Int)
    else none

/-- The SET loop started at line `k`. -/
def setGo (lines : List String) (k : Nat) (needsComma : Bool) (prevIdx : Int) :
    Option ValidationResult :=
  setGoF lines lines.length k needsComma prevIdx

/-- The INSERT/UPDATE pre-pass of `missingCommaRule.validate` (fuel only
discharges termination). -/
def mcPrePassF (lines : List String) : Nat → Nat → Option ValidationResult
  | 0, _ => none
  | f + 1, i =>
    if i < lines.length then
      let line := jsTrim (lines.getD i "")
      if line.isEmpty then mcPrePassF lines f (i + 1)
      else
        let lowerLine := jsLower line
        let insertResult : Option ValidationResult :=
          if jsStartsWith lowerLine "insert into" then
            match checkParenthesizedList lines i with
            | some r => some r
            | none =>
              match findLineFrom lines (fun l => jsStartsWith (jsLower (jsTrim l)) "values") (i + 1) with
              | some j => checkParenthesizedList lines j
              | none => none
          else none
        match insertResult with
        | some r => some r
        | none =>
          let updateResult : Option ValidationResult :=
            if jsStartsWith lowerLine "update" then
              match findLineFrom lines (fun l => jsStartsWith (jsLower (jsTrim l)) "set") (i + 1) with
              | some j => setGo lines (j + 1) false (-1)
              | none => none
            else none
          match updateResult with
          | some r => some r
          | none => mcPrePassF lines f (i + 1)
    else none

/-- The pre-pass started at line `i`. -/
def mcPrePass (lines : List String) (i : Nat) : Option ValidationResult :=
  mcPrePassF lines lines.length i

/-- The continuation-keyword prefix regex
`/^(when|then|else|end|and|or|where|group|order|having|limit|offset|on)/i`. -/
def mcContinuationKw (s : String) : Bool :=
  ["when", "then", "else", "end", "and", "or", "where", "group", "order",
   "having", "limit", "offset", "on"].any (fun w => jsStartsWith s w)

/-- The whole-line CASE-keyword regex `/^(when|then|else|case)$/i`. -/
def mcCaseKwLine (s : String) : Bool :=
  ["when", "then", "else", "case"].any (fun w => s == w)

/-- The SELECT column-list loop of `missingCommaRule.validate`, carrying the
in-SELECT flag, needs-comma flag, previous line index and CASE depth (fuel
only discharges termination). -/
def mcSelGoF (lines : List String) : Nat → Nat → Bool → Bool → Int → Nat → Option ValidationResult
  | 0, _, _, _, _, _ => none
  | f + 1, i, inSel, needsComma, prevIdx, caseDepth =>
    if i < lines.length then
      let line := jsTrim (lines.getD i "")
      if line.isEmpty then mcSelGoF lines f (i + 1) inSel needsComma prevIdx caseDepth
      else
        let lowerLine := jsLower line
        if jsStartsWith lowerLine "select" then mcSelGoF lines f (i + 1) true needsComma prevIdx caseDepth
        else if inSel && jsStartsWith lowerLine "from" then none
        else if inSel then
          let cd1 := if jsIncludes lowerLine "case" then caseDepth + 1 else caseDepth
          let cd2 := if jsIncludes lowerLine "end" && cd1 > 0 then cd1 - 1 else cd1
          if needsComma && !jsEndsWith (jsTrim (lines.getD prevIdx.toNat "")) "," &&
              cd2 = 0 && !mcContinuationKw lowerLine then
            some { isValid := false,
                   errorMessage := some "Missing comma between column expressions. Add a comma at the end of this line to separate columns in SELECT statement.",
                   lineNumber := some prevIdx.toNat,
                   suggestedFix := some (mcFix lines prevIdx.toNat) }
          else
            let nextNonEmptyLine := mcNextNonEmpty lines (i + 1)
            let isLastColumn := (nextNonEmptyLine.map looksLikeFROM).getD false
            mcSelGoF lines f (i + 1) inSel
              (!isLastColumn && cd2 = 0 && !mcCaseKwLine lowerLine && line.data.length > 0)
              (i : Int) cd2
        else mcSelGoF lines f (i + 1) inSel needsComma prevIdx caseDepth
    else none

/-- The SELECT loop started at line `i`. -/
def mcSelGo (lines : List String) (i : Nat) (inSel needsComma : Bool) (prevIdx : Int)
    (caseDepth : Nat) : Option ValidationResult :=
  mcSelGoF lines lines.length i inSel needsComma prevIdx caseDepth

/-- `missingCommaRule`. -/
def missingCommaRule : Rule where
  name := "missing-comma"
  description := "Check for missing commas in column lists, VALUES, and SET clauses"
  validate := fun _sql originalQuery =>
    let lines := jsLines originalQuery
    match mcPrePass lines 0 with
    | some r => .ok r
    | none =>
      match mcSelGo lines 0 false false (-1) 0 with
      | some r => .ok r
      | none => .ok { isValid := true }

/-! ## validation/rules/propertyNameTyposRule.ts -/

/-- The typo dictionary, in object-literal insertion order. -/
def propertyTypos : List (String × String) :=
  [("static_entitlement", "static_entitlements"),
   ("staticentitlements", "static_entitlements"),
   ("static_entitlementz", "static_entitlements"),
   ("static_entitlementss", "static_entitlements"),
   ("staticentitlement", "static_entitlements"),
   ("static_entitlement_", "static_entitlements"),
   ("_static_entitlements", "static_entitlements")]

/-- The line loop of `propertyNameTyposRule.validate` (fuel only discharges
termination). -/
def pntGoF (lines : List String) : Nat → Nat → Option ValidationResult
  | 0, _ => none
  | f + 1, i =>
    if i < lines.length then
      let line := jsTrim (lines.getD i "")
      if line.isEmpty then pntGoF lines f (i + 1)
      else
        match propertyTypos.find? (fun tc => jsIncludes line (tc.1 ++ ":")) with
        | some tc =>
          some { isValid := false,
                 errorMessage := some ("Did you mean '" ++ tc.2 ++ "' instead of '" ++ tc.1 ++ "'?"),
                 lineNumber := some i }
        | none => pntGoF lines f (i + 1)
    else none

/-- The line loop started at `i`. -/
def pntGo (lines : List String) (i : Nat) : Option ValidationResult :=
  pntGoF lines lines.length i

/-- `propertyNameTyposRule`. -/
def propertyNameTyposRule : Rule where
  name := "property-name-typos"
  description := "Check for common property name typos"
  validate := fun _sql originalQuery =>
    match pntGo (jsLines originalQuery) 0 with
    | some r => .ok r
    | none => .ok { isValid := true }

/-! ## validation/rules/credentialMutualExclusionRule.ts -/

/-- The line loop of `credentialMutualExclusionRule.validate`, returning the
final `(hasRandomPassword, hasNoPassword, randomPasswordLine, noPasswordLine)`
state (fuel only discharges termination). -/
def cmeGoF (lines : List String) : Nat → Nat → Bool → Bool → Bool → Int → Int → Bool × Bool × Int × Int
  | 0, _, _, hasR, hasN, rLine, nLine => (hasR, hasN, rLine, nLine)
  | f + 1, i, inside, hasR, hasN, rLine, nLine =>
    if i < lines.length then
      let raw := lines.getD i ""
      let line := jsLower (jsTrim raw)
      if jsIncludes line "credentials:" then cmeGoF lines f (i + 1) true hasR hasN rLine nLine
      else if inside then
        if line.data.length > 0 && !jsStartsWith raw " " && !jsStartsWith raw "\t" then
          cmeGoF lines f (i + 1) false hasR hasN rLine nLine
        else
          let hr := hasR || jsIncludes line "random_password:"
          let rl := if jsIncludes line "random_password:" then (i : Int) else rLine
          let hn := hasN || jsIncludes line "no_password:"
          let nl := if jsIncludes line "no_password:" then (i : Int) else nLine
          cmeGoF lines f (i + 1) inside hr hn rl nl
      else cmeGoF lines f (i + 1) inside hasR hasN rLine nLine
    else (hasR, hasN, rLine, nLine)

/-- The loop started at `i`. -/
def cmeGo (lines : List String) (i : Nat) (inside hasR hasN : Bool) (rLine nLine : Int) :
    Bool × Bool × Int × Int :=
  cmeGoF lines lines.length i inside hasR hasN rLine nLine

/-- `credentialMutualExclusionRule`. -/
def credentialMutualExclusionRule : Rule where
  name := "credential-mutual-exclusion"
  description := "Check for conflicting credential strategies"
  validate := fun _sql originalQuery =>
    let st := cmeGo (jsLines originalQuery) 0 false false false (-1) (-1)
    if st.1 && st.2.1 then
      .ok { isValid := false,
            errorMessage := some "Only one credential strategy is allowed. Choose either 'random_password' or 'no_password', not both.",
            lineNumber := some (min st.2.2.1 st.2.2.2).toNat }
    else .ok { isValid := true }

/-! ## validation/rules/invalidOrderByRule.ts -/

/-- Match of `/\border\s+by\s+(\d+)\b/i` at the scan position: returns the
length of the matched text when it matches. -/
def orderByNumLen (prev : Option Char) (l : List Char) : Option Nat :=
  if boundaryBefore prev && listPrefixCI "order".data l then
    let r := l.drop 5
    let ws1 := r.takeWhile isWs
    if ws1.isEmpty then none
    else
      let r2 := r.drop ws1.length
      if listPrefixCI "by".data r2 then
        let r3 := r2.drop 2
        let ws2 := r3.takeWhile isWs
        if ws2.isEmpty then none
        else
          let r4 := r3.drop ws2.length
          let ds := r4.takeWhile isDigitCh
          if ds.isEmpty then none
          else
            match r4.drop ds.length with
            | [] => some (5 + ws1.length + 2 + ws2.length + ds.length)
            | c :: _ =>
              if isWordChar c then none else some (5 + ws1.length + 2 + ws2.length + ds.length)
      else none
  else none

/-- Position scan for the first match of the positional-ORDER-BY regex,
returning the matched text. -/
def orderByScan (prev : Option Char) (l : List Char) : Option (List Char)  :=
  match orderByNumLen prev l with
  | some len => some (l.take len)
  | none =>
    match l with
    | [] => none
    | c :: t => orderByScan (some c) t

/-- `/\border\s+by\s+(\d+)\b/i.test s`. -/
def testOrderByNum (s : String) : Bool := (orderByScan none s.data).isSome

/-- First line containing `order by` (lowercased includes) and matching the
positional regex, from `invalidOrderByRule` (fuel only discharges
termination). -/
def obLineLoopF (lines : List String) : Nat → Nat → Option Nat
  | 0, _ => none
  | f + 1, i =>
    if i < lines.length then
      let raw := lines.getD i ""
      if jsIncludes (jsLower (jsTrim raw)) "order by" && testOrderByNum raw then some i
      else obLineLoopF lines f (i + 1)
    else none

/-- The loop started at `i`. -/
def obLineLoop (lines : List String) (i : Nat) : Option Nat :=
  obLineLoopF lines lines.length i

/-- The invalid-ORDER-BY diagnostic message. -/
def obMsg : String :=
  "Using position numbers in ORDER BY is not supported in some SQL dialects. Use column names instead: 'ORDER BY column_name ASC/DESC'."

/-- `invalidOrderByRule`. -/
def invalidOrderByRule : Rule where
  name := "invalid-order-by"
  description := "Check for invalid ORDER BY references"
  validate := fun sql originalQuery =>
    match orderByScan none sql.data with
    | some matched =>
      let viaLines : Option Nat :=
        if jsIncludes originalQuery "\n" then obLineLoop (jsLines originalQuery) 0 else none
      match viaLines with
      | some i => .ok { isValid := false, errorMessage := some obMsg, lineNumber := some i }
      | none => .ok { isValid := false, errorMessage := some obMsg,
                      position := some (jsIndexOf sql (String.mk matched)) }
    | none => .ok { isValid := true }

/-! ## validation/rules/keywordSpellingRule.ts -/

/-- The recognised-keyword list of keywordSpellingRule.ts. -/
def ksSqlKeywords : List String :=
  ["SELECT", "FROM", "WHERE", "AND", "OR", "ORDER BY", "GROUP BY", "HAVING",
   "JOIN", "LEFT JOIN", "RIGHT JOIN", "INNER JOIN", "FULL JOIN", "OUTER JOIN",
   "CROSS JOIN", "ON", "AS", "IN", "EXISTS", "NOT", "BETWEEN", "LIKE",
   "IS NULL", "IS NOT NULL", "LIMIT", "OFFSET", "INSERT INTO", "VALUES",
   "UPDATE", "SET", "DELETE FROM", "CREATE TABLE", "ALTER TABLE", "DROP TABLE",
   "INDEX", "UNION", "ALL", "DISTINCT", "CASE", "WHEN", "THEN", "ELSE", "END",
   "WITH"]

/-- The explicit typo dictionary, in object-literal insertion order. -/
def ksCommonTypos : List (String × String) :=
  [("SELCT", "SELECT"), ("SLECT", "SELECT"), ("SELET", "SELECT"),
   ("SELECTT", "SELECT"), ("SEKECT", "SELECT"),
   ("FORM", "FROM"), ("FOMR", "FROM"), ("FROMT", "FROM"), ("FRIM", "FROM"),
   ("WEHRE", "WHERE"), ("WHRE", "WHERE"), ("WHER", "WHERE"), ("WHEER", "WHERE"),
   ("WHEREE", "WHERE"), ("HWERE", "WHERE"), ("WKERE", "WHERE"), ("WHERRE", "WHERE"),
   ("GROOP", "GROUP"), ("GRUOP", "GROUP"), ("GORUP", "GROUP"), ("GROPU", "GROUP"),
   ("GROUPP", "GROUP"),
   ("ORDRE", "ORDER"), ("ORDR", "ORDER"), ("OREDR", "ORDER"), ("ORDERBY", "ORDER BY"),
   ("ODER", "ORDER"), ("OERDER", "ORDER"),
   ("JOIM", "JOIN"), ("JION", "JOIN"), ("JIOIN", "JOIN"), ("JOINN", "JOIN"),
   ("ONM", "ON"), ("ONN", "ON"),
   ("UPDTE", "UPDATE"), ("UPDAET", "UPDATE"), ("UPATE", "UPDATE"), ("UPDATTE", "UPDATE"),
   ("ISNER", "INSERT"), ("INSRET", "INSERT"), ("INSER", "INSERT"), ("INSETT", "INSERT"),
   ("INSETR", "INSERT"),
   ("DELTE", "DELETE"), ("DELETTE", "DELETE"), ("DEELETE", "DELETE"), ("DEKETE", "DELETE"),
   ("DELEET", "DELETE"),
   ("HAIVNG", "HAVING"), ("HAVNIG", "HAVING"), ("AHVING", "HAVING"), ("HABING", "HAVING"),
   ("GROUPBY", "GROUP BY"), ("INNERJOIN", "INNER JOIN"), ("LEFTJOIN", "LEFT JOIN"),
   ("RIGHTJOIN", "RIGHT JOIN"), ("FULLJOIN", "FULL JOIN"), ("OUTERJOIN", "OUTER JOIN")]

/-- The seven primary clause keywords used by the fuzzy pass. -/
def ksPrimaryKeywords : List String :=
  ["SELECT", "FROM", "WHERE", "GROUP", "ORDER", "JOIN", "HAVING"]

/-- The word-bounded case-insensitive search `new RegExp("\\b" + typo + "\\b", "i").test hay`. -/
def wordBoundedIncl (hay needle : String) : Bool :=
  scanWithPrev
    (fun prev l =>
      boundaryBefore prev && listPrefixCI needle.data l &&
        (match l.drop needle.data.length with
         | [] => true
         | c :: _ => !isWordChar c))
    none hay.data

/-- `findMostSimilarWord` from keywordSpellingRule.ts: first candidate of
strictly minimal Levenshtein distance (initial minimum is Infinity). -/
def findMostSimilarWord (word : String) (possibleWords : List String) : String :=
  (possibleWords.foldl
    (fun acc candidate =>
      let distance := levenshteinDistance word candidate
      match acc.1 with
      | none => (some distance, candidate)
      | some m => if distance < m then (some distance, candidate) else acc)
    ((none : Option Nat), "")).2

/-- The keyword-typo diagnostic message. -/
def ksMsg (typo correction : String) : String :=
  "Possible typo in SQL keyword: \"" ++ typo ++ "\" - Did you mean \"" ++ correction ++ "\"?"

/-- The line loop of `keywordSpellingRule.validate` (fuel only discharges
termination). -/
def ksGoF (lines : List String) : Nat → Nat → Option ValidationResult
  | 0, _ => none
  | f + 1, i =>
    if i < lines.length then
      let line := jsTrim (lines.getD i "")
      if line.isEmpty then ksGoF lines f (i + 1)
      else
        let upperLine := jsUpper line
        match ksCommonTypos.find? (fun tc => wordBoundedIncl upperLine tc.1) with
        | some tc =>
          some { isValid := false, errorMessage := some (ksMsg tc.1 tc.2), lineNumber := some i }
        | none =>
          let firstWord := firstToken upperLine
          if firstWord.data.length < 3 then ksGoF lines f (i + 1)
          else if ksSqlKeywords.any (fun keyword => firstToken keyword == firstWord) then
            ksGoF lines f (i + 1)
          else
            let possibleKeywords := ksPrimaryKeywords.filter (fun keyword => areWordsSimilar firstWord keyword 1)
            if possibleKeywords.isEmpty then ksGoF lines f (i + 1)
            else
              let mostSimilar := findMostSimilarWord firstWord possibleKeywords
              some { isValid := false, errorMessage := some (ksMsg firstWord mostSimilar),
                     lineNumber := some i }
    else none

/-- The line loop started at `i`. -/
def ksGo (lines : List String) (i : Nat) : Option ValidationResult :=
  ksGoF lines lines.length i

/-- `keywordSpellingRule`; only runs on multiline queries. -/
def keywordSpellingRule : Rule where
  name := "keyword-spelling"
  description := "Check for misspelled SQL keywords"
  validate := fun _sql originalQuery =>
    if !jsIncludes originalQuery "\n" then .ok { isValid := true }
    else
      match ksGo (jsLines originalQuery) 0 with
      | some r => .ok r
      | none => .ok { isValid := true }

/-! ## validation/rules/batonParameterValidationRule.ts -/

/-- Match of `/\?\<([^>]+)\>/` at the head of the list: the raw parameter
name and the characters after the closing `>`. -/
def bmAt : List Char → Option (String × List Char)
  | [] => none
  | c :: cs =>
    if c = '?' then
      match cs with
      | [] => none
      | d :: rest =>
        if d = '<' then
          let nm := rest.takeWhile (fun x => x ≠ '>')
          if nm.isEmpty then none
          else
            match rest.drop nm.length with
            | '>' :: tail => some (String.mk nm, tail)
            | _ => none
        else none
    else none

/-- The `matchAll` loop collecting `(index, name)` for every Baton parameter
token, advancing past each match (fuel, at least the list length, only
discharges termination; every step consumes at least one character). -/
def batonScanF : Nat → List Char → Nat → List (Nat × String)
  | 0, _, _ => []
  | f + 1, l, p =>
    match l with
    | [] => []
    | c :: cs =>
      match bmAt (c :: cs) with
      | some nt => (p, nt.1) :: batonScanF f nt.2 (p + nt.1.data.length + 3)
      | none => batonScanF f cs (p + 1)

/-- The match scan over a whole character list. -/
def batonScan (l : List Char) (p : Nat) : List (Nat × String) :=
  batonScanF l.length l p

/-- The SQL-keyword set of batonParameterValidationRule.ts. -/
def batonSqlKeywords : List String :=
  ["select", "from", "where", "and", "or", "order", "by", "group", "having",
   "join", "inner", "left", "right", "outer", "on", "as", "in", "exists",
   "not", "between", "like", "null", "is", "limit", "offset", "insert",
   "into", "values", "update", "set", "delete", "create", "table", "alter",
   "drop", "index", "union", "all", "distinct", "case", "when", "then",
   "else", "end", "with"]

/-- `paramName.replace(/[.*+?^$\x7b\x7d()|[\]\\]/g, '\\$&')`. -/
def escapeRegExp (s : String) : String :=
  ⟨s.data.flatMap (fun c =>
    if c = '.' || c = '*' || c = '+' || c = '?' || c = '^' || c = '$' ||
       c = '\x7b' || c = '\x7d' || c = '(' || c = ')' || c = '|' ||
       c = '[' || c = ']' || c = '\\' then ['\\', c] else [c])⟩

/-- `/^[a-zA-Z_][a-zA-Z0-9_]*$/.test name`. -/
def isIdentName (s : String) : Bool :=
  match s.data with
  | [] => false
  | c :: rest => isIdentStart c && rest.all isWordChar

/-- The line lookup shared by the parameter checks. -/
def batonLineOf (originalQuery paramName : String) : Option Nat :=
  (findLineWithPattern originalQuery ("?<" ++ escapeRegExp paramName ++ ">") {}).map Prod.fst

/-- The common-parameter dictionary. -/
def batonCommonParams : List String :=
  ["user_id", "resource_id", "role_id", "permission_id", "group_id"]

/-- The per-parameter checks of batonParameterValidationRule.ts, in their
source order; `none` when the parameter passes all of them. -/
def batonCheckParam (originalQuery : String) (matchIndex : Nat) (rawName : String) :
    Option ValidationResult :=
  let paramName := jsTrim rawName
  if paramName.isEmpty then
    some { isValid := false,
           errorMessage := some "Empty Baton parameter name. Use format: ?<parameter_name>",
           position := some (matchIndex : Int) }
  else if !isIdentName paramName then
    some { isValid := false,
           errorMessage := some ("Invalid Baton parameter name '" ++ paramName ++
             "'. Use only letters, numbers, and underscores. Must start with letter or underscore."),
           lineNumber := batonLineOf originalQuery paramName,
           position := some (matchIndex : Int) }
  else if batonSqlKeywords.contains (jsLower paramName) then
    some { isValid := false,
           errorMessage := some ("Baton parameter name '" ++ paramName ++
             "' conflicts with SQL keyword. Consider using '" ++ paramName ++
             "_value' or '" ++ paramName ++ "_param'."),
           lineNumber := batonLineOf originalQuery paramName,
           position := some (matchIndex : Int) }
  else if paramName.data.length < 2 then
    some { isValid := false,
           errorMessage := some ("Baton parameter name '" ++ paramName ++
             "' is too short. Use descriptive names like 'user_id' or 'resource_name'."),
           lineNumber := batonLineOf originalQuery paramName,
           position := some (matchIndex : Int) }
  else
    let similarParams := batonCommonParams.filter (fun param =>
      areWordsSimilar (jsLower paramName) param 1)
    if !similarParams.isEmpty && !batonCommonParams.contains (jsLower paramName) then
      some { isValid := false,
             errorMessage := some ("Possible typo in Baton parameter '" ++ paramName ++
               "'. Did you mean '" ++ similarParams.headD "" ++ "'?"),
             lineNumber := batonLineOf originalQuery paramName,
             position := some (matchIndex : Int) }
    else none

/-- The loop over all matched parameters, returning the first failure. -/
def batonLoop (originalQuery : String) : List (Nat × String) → Option ValidationResult
  | [] => none
  | (idx, nm) :: rest =>
    match batonCheckParam originalQuery idx nm with
    | some r => some r
    | none => batonLoop originalQuery rest

/-- `batonParameterValidationRule`. -/
def batonParameterValidationRule : Rule where
  name := "baton-parameter-validation"
  description := "Validate Baton parameterized query syntax"
  validate := fun sql originalQuery =>
    let paramMatches := batonScan sql.data 0
    if paramMatches.isEmpty then .ok { isValid := true }
    else
      match batonLoop originalQuery paramMatches with
      | some r => .ok r
      | none => .ok { isValid := true }

/-! ## validation/rules/missingFromRule.ts -/

/-- `/^select\s+[\d'"]/` on the lowercased trimmed content. -/
def reSelectLit (l : List Char) : Bool :=
  listPrefix "select".data l &&
    (let rest := l.drop 6
     let ws := rest.takeWhile isWs
     !ws.isEmpty &&
       (match rest.drop ws.length with
        | d :: _ => isDigitCh d || d = '\'' || d = '"'
        | [] => false))

/-- The FROM-less system-function allow-list, verbatim from the source
(including the literal string `case\s+when`, which is checked via
`includes`, not as a regex). -/
def mfSystemFunctions : List String :=
  ["current_date", "current_time", "current_timestamp", "now()",
   "getdate()", "sysdate", "user", "session_user", "current_user",
   "database()", "version()", "connection_id()", "last_insert_id()",
   "row_count()", "found_rows()", "uuid()", "rand()", "pi()",
   "abs(", "ceil(", "floor(", "round(", "sqrt(", "power(", "mod(",
   "length(", "upper(", "lower(", "trim(", "ltrim(", "rtrim(",
   "substring(", "concat(", "coalesce(", "nullif(", "greatest(",
   "least(", "case\\s+when"]

/-- A character of the class `[\d\s\+\-\*\/\(\)]`. -/
def mathClassCh (c : Char) : Bool :=
  isDigitCh c || isWs c || c = '+' || c = '-' || c = '*' || c = '/' || c = '(' || c = ')'

/-- `/select\s+[\d\s\+\-\*\/\(\)]+$/` (unanchored search). -/
def reSelectMath (l : List Char) : Bool :=
  anySuffix
    (fun suf =>
      listPrefix "select".data suf &&
        (let rest := suf.drop 6
         decide (rest.length ≥ 2) &&
           (match rest with
            | d :: _ => isWs d
            | [] => false) && rest.all mathClassCh))
    l

/-- `/select\s+@\w+/` (and with `$` for `sig = '$'`). -/
def reSelectVar (sig : Char) (l : List Char) : Bool :=
  anySuffix
    (fun suf =>
      listPrefix "select".data suf &&
        (let rest := suf.drop 6
         let ws := rest.takeWhile isWs
         !ws.isEmpty &&
           (match rest.drop ws.length with
            | c :: d :: _ => c = sig && isWordChar d
            | _ => false)))
    l

/-- `isValidSelectWithoutFrom` from missingFromRule.ts. -/
def isValidSelectWithoutFrom (selectContent : String) : Bool :=
  let lowerContent := jsTrim (jsLower selectContent)
  reSelectLit lowerContent.data ||
  mfSystemFunctions.any (fun func => jsIncludes lowerContent func) ||
  reSelectMath lowerContent.data ||
  reSelectVar '@' lowerContent.data ||
  reSelectVar '$' lowerContent.data

/-- The AST guard of missingFromRule.ts:
`ast && typeof ast === 'object' && 'type' in ast && ast.type === "select" &&
(!('from' in ast) || !ast.from || (Array.isArray(ast.from) && ast.from.length === 0))`. -/
def astSelectNoFrom (ast : Jv) : Bool :=
  truthy ast && jsTypeofObject ast && hasField ast "type" &&
  jvIsStr (getField ast "type") "select" &&
  (!hasField ast "from" || !truthy (getField ast "from") ||
    (match getField ast "from" with
     | .jarr xs => xs.isEmpty
     | _ => false))

/-- The missing-FROM diagnostic message. -/
def mfMsg : String :=
  "Missing FROM clause in SELECT statement. Add FROM clause or use system functions/literals if querying constants."

/-- The missing-FROM finding, located at the first line containing `select`. -/
def mfFinding (originalQuery : String) : ValidationResult :=
  { isValid := false, errorMessage := some mfMsg,
    lineNumber := (findLineWithPattern originalQuery "select" { ignoreCase := true }).map Prod.fst }

/-- `missingFromRule`, parameterised by the parse oracle. -/
def missingFromRule (p : Parse) : Rule where
  name := "missing-from"
  description := "Check for missing FROM clause in SELECT statements"
  validate := fun sql originalQuery =>
    match p sql with
    | .ok ast =>
      if astSelectNoFrom ast then
        if isValidSelectWithoutFrom sql then .ok { isValid := true }
        else .ok (mfFinding originalQuery)
      else .ok { isValid := true }
    | .error _ =>
      if jsStartsWith (jsLower sql) "select" && !jsIncludes (jsLower sql) " from " then
        if isValidSelectWithoutFrom sql then .ok { isValid := true }
        else .ok (mfFinding originalQuery)
      else .ok { isValid := true }

/-! ## validation/rules/unclosedParenthesesRule.ts -/

/-- `unclosedParenthesesRule`, parameterised by the parse oracle; a parse
success means balanced parentheses, and only parse errors mentioning
`parenthesis` are surfaced (`error.location?.line || undefined` turns a zero
line into `undefined`). -/
def unclosedParenthesesRule (p : Parse) : Rule where
  name := "unclosed-parentheses"
  description := "Check for unclosed parentheses"
  validate := fun sql _originalQuery =>
    match p sql with
    | .ok _ => .ok { isValid := true }
    | .error e =>
      if jsIncludes e.message "parenthesis" then
        .ok { isValid := false,
              errorMessage := some (e.message ++
                ". Check that all opening parentheses '(' have matching closing parentheses ')'."),
              lineNumber :=
                match e.locLine with
                | some n => if n = 0 then none else some n
                | none => none }
      else .ok { isValid := true }

/-! ## validation/rules/invalidJoinRule.ts -/

/-- The missing-ON-clause message for a given join tag. -/
def ijAstMsg (joinTag : String) : String :=
  joinTag ++ " statement missing ON clause. Add 'ON table1.column = table2.column' to specify join condition."

/-- `Array.isArray` discrimination on a value. -/
def jvAsArr : Jv → Option (List Jv)
  | .jarr xs => some xs
  | _ => none

theorem jvAsArr_sizeOf {fc : Jv} {xs : List Jv} (h : jvAsArr fc = some xs) :
    sizeOf xs < sizeOf fc := by
  cases fc with
  | jarr ys =>
    simp only [jvAsArr, Option.some_inj] at h
    subst h
    simp only [Jv.jarr.sizeOf_spec]
    omega
  | null => simp [jvAsArr] at h
  | jbool b => simp [jvAsArr] at h
  | jnum n => simp [jvAsArr] at h
  | jstr t => simp [jvAsArr] at h
  | jobj fs => simp [jvAsArr] at h

mutual
/-- `checkJoins` of invalidJoinRule.ts: recursive walk of the FROM clause
looking for a join node without an `on` field, descending into subquery
tables.  The JS recursion into `fromClause.table.from` is guarded here by
truthiness (a falsy argument returns valid immediately in the source). -/
def checkJoins (orig : String) (fc : Jv) : ValidationResult :=
  if truthy fc = false then { isValid := true }
  else
    match harr : jvAsArr fc with
    | some xs => checkJoinsList orig xs
    | none =>
      if truthy (getField fc "join") && !truthy (getField fc "on") then
        { isValid := false,
          errorMessage := some (ijAstMsg (jvStr (getField fc "join"))),
          lineNumber :=
            (findLineWithPattern orig (jvStr (getField fc "join")) { ignoreCase := true }).map Prod.fst }
      else if h1 : truthy (getField fc "table") = true then
        if jvIsStr (getField (getField fc "table") "type") "select" then
          if h2 : truthy (getField (getField fc "table") "from") = true then
            checkJoins orig (getField (getField fc "table") "from")
          else { isValid := true }
        else { isValid := true }
      else { isValid := true }
termination_by sizeOf fc
decreasing_by
  · exact jvAsArr_sizeOf harr
  · have ha : sizeOf (getField fc "table") < sizeOf fc := sizeOf_getField_lt "table" h1
    have hb : sizeOf (getField (getField fc "table") "from") < sizeOf (getField fc "table") :=
      sizeOf_getField_lt "from" h2
    omega

/-- First failing result among the elements of a FROM-clause array. -/
def checkJoinsList (orig : String) (xs : List Jv) : ValidationResult :=
  match xs with
  | [] => { isValid := true }
  | t :: ts =>
    let r := checkJoins orig t
    if r.isValid then checkJoinsList orig ts else r
termination_by sizeOf xs
decreasing_by
  · simp only [List.cons.sizeOf_spec]
    omega
  · simp only [List.cons.sizeOf_spec]
    omega
end

/-- `extractJoinType` from invalidJoinRule.ts. -/
def extractJoinType (line : String) : String :=
  let lowerLine := jsLower line
  if jsIncludes lowerLine "inner join" then "inner join"
  else if jsIncludes lowerLine "left join" then "left join"
  else if jsIncludes lowerLine "right join" then "right join"
  else if jsIncludes lowerLine "full join" then "full join"
  else if jsIncludes lowerLine "outer join" then "outer join"
  else if jsIncludes lowerLine "cross join" then "cross join"
  else "join"

/-- The JOIN-keyword sniffing of the first pass (on the trimmed lowercased
line); empty string when the line holds no JOIN. -/
def joinTypeOf (trimmedLine : String) : String :=
  if trimmedLine == "join" || jsStartsWith trimmedLine "join " then "join"
  else if jsIncludes trimmedLine " join " || jsIncludes trimmedLine " inner join " ||
      jsIncludes trimmedLine " left join " || jsIncludes trimmedLine " right join " ||
      jsIncludes trimmedLine " full join " || jsIncludes trimmedLine " outer join " then
    extractJoinType trimmedLine
  else if jsIncludes trimmedLine " cross join " then "cross join"
  else ""

/-- `^(inner|left|right|full|outer|cross)\s+join$` on the trimmed lowered line. -/
def joinKwAlone (l : List Char) : Bool :=
  ["inner", "left", "right", "full", "outer", "cross"].any (fun w =>
    listPrefix w.data l &&
      (let r := l.drop w.length
       let ws := r.takeWhile isWs
       !ws.isEmpty && r.drop ws.length = "join".data))

/-- `(\s+on\s+|$)` at the given point of the table-name regex. -/
def endOrOn (r : List Char) : Bool :=
  r.isEmpty ||
    (let ws := r.takeWhile isWs
     !ws.isEmpty &&
       (let r2 := r.drop ws.length
        listPrefix "on".data r2 &&
          (let r3 := r2.drop 2
           !(r3.takeWhile isWs).isEmpty)))

/-- `^[a-zA-Z_]\w*(\s+[a-zA-Z_]\w*)?(\s+on\s+|$)` on the trimmed lowered
line (the `i` flag is moot after lowercasing). -/
def reTableNamePat (l : List Char) : Bool :=
  match l with
  | [] => false
  | c :: rest =>
    isIdentStart c &&
      (let r0 := rest.dropWhile isWordChar
       endOrOn r0 ||
         (let ws := r0.takeWhile isWs
          !ws.isEmpty &&
            (match r0.drop ws.length with
             | d :: rest2 =>
               isIdentStart d && endOrOn (rest2.dropWhile isWordChar)
             | [] => false)))

/-- `hasTableNameInLine` from invalidJoinRule.ts. -/
def hasTableNameInLine (line : String) : Bool :=
  let trimmed := jsLower (jsTrim line)
  if trimmed == "join" || joinKwAlone trimmed.data then false
  else reTableNamePat trimmed.data

/-- `extractTableName` from invalidJoinRule.ts: first word that is not a JOIN
keyword. -/
def extractTableName (line : String) : String :=
  let parts := wordsOf (jsTrim line)
  (parts.find? (fun part =>
    !(["join", "inner", "left", "right", "full", "outer", "cross", "on"].contains
      (jsLower part)))).getD ""

/-- `/[a-zA-Z_][a-zA-Z0-9_]*\.[a-zA-Z_][a-zA-Z0-9_]*/` search. -/
def hasTableColumnPattern (l : List Char) : Bool :=
  anySuffix
    (fun suf =>
      match suf with
      | c :: rest =>
        isIdentStart c &&
          (let run := rest.takeWhile isWordChar
           match rest.drop run.length with
           | '.' :: d :: _ => isIdentStart d
           | _ => false)
      | [] => false)
    l

/-- `/[a-zA-Z_][a-zA-Z0-9_.]*\s*=\s*[a-zA-Z_][a-zA-Z0-9_.]*/` search. -/
def hasComparisonPattern (l : List Char) : Bool :=
  anySuffix
    (fun suf =>
      match suf with
      | c :: rest =>
        isIdentStart c &&
          (let run := rest.takeWhile (fun d => isWordChar d || d = '.')
           let r1 := (rest.drop run.length).dropWhile isWs
           match r1 with
           | '=' :: r2 =>
             match r2.dropWhile isWs with
             | d :: _ => isIdentStart d
             | [] => false
           | _ => false)
      | [] => false)
    l

/-- `isJoinConditionWithoutOn` from invalidJoinRule.ts. -/
def isJoinConditionWithoutOn (line : String) : Bool :=
  let trimmed := jsLower (jsTrim line)
  if jsIncludes trimmed "=" && !jsStartsWith trimmed "on " then
    hasTableColumnPattern trimmed.data && hasComparisonPattern trimmed.data
  else false

/-- The analysed shape of one JOIN occurrence. -/
structure JoinStructure where
  joinLineIndex : Nat
  joinType : String
  tableLineIndex : Option Nat := none
  tableName : Option String := none
  hasProperOnClause : Bool := false
  hasMissingOnKeyword : Bool := false
  conditionLineIndex : Option Nat := none

/-- `^(select|from|where|group\s+by|order\s+by|having|limit|union|join)` on
the lowered line. -/
def ijClauseKw (s : String) : Bool :=
  let l := s.data
  listPrefix "select".data l || listPrefix "from".data l || listPrefix "where".data l ||
  (listPrefix "group".data l &&
    (let r := l.drop 5
     let ws := r.takeWhile isWs
     !ws.isEmpty && listPrefix "by".data (r.drop ws.length))) ||
  (listPrefix "order".data l &&
    (let r := l.drop 5
     let ws := r.takeWhile isWs
     !ws.isEmpty && listPrefix "by".data (r.drop ws.length))) ||
  listPrefix "having".data l || listPrefix "limit".data l ||
  listPrefix "union".data l || listPrefix "join".data l

/-- The look-ahead loop of `analyzeJoinStructure` over lines
`joinLineIndex+1 … min(joinLineIndex+5, length)−1`. -/
def ajsLoop (lines : List String) (stopAt : Nat) (j : Nat) (js : JoinStructure) : JoinStructure :=
  if h : j < stopAt ∧ j < lines.length then
    let line := jsTrim (lines.getD j "")
    let lowerLine := jsLower line
    if line.isEmpty then ajsLoop lines stopAt (j + 1) js
    else if ijClauseKw lowerLine && !jsStartsWith lowerLine "join" then js
    else if jsIncludes lowerLine " on " || jsStartsWith lowerLine "on " then
      { js with hasProperOnClause := true }
    else if isJoinConditionWithoutOn line then
      { js with hasMissingOnKeyword := true, conditionLineIndex := some j }
    else if js.tableName.isNone && hasTableNameInLine line then
      ajsLoop lines stopAt (j + 1)
        { js with tableName := some (extractTableName line), tableLineIndex := some j }
    else ajsLoop lines stopAt (j + 1) js
  else js
termination_by stopAt - j
decreasing_by all_goals omega

/-- `analyzeJoinStructure` from invalidJoinRule.ts. -/
def analyzeJoinStructure (lines : List String) (joinLineIndex : Nat) (joinType : String) :
    JoinStructure :=
  let js0 : JoinStructure := { joinLineIndex := joinLineIndex, joinType := joinType }
  let joinLine := jsTrim (lines.getD joinLineIndex "")
  let js1 :=
    if hasTableNameInLine joinLine then
      { js0 with tableName := some (extractTableName joinLine),
                 tableLineIndex := some joinLineIndex }
    else js0
  if hasTableNameInLine joinLine && jsIncludes (jsLower joinLine) " on " then
    { js1 with hasProperOnClause := true }
  else ajsLoop lines (min (joinLineIndex + 5) lines.length) (joinLineIndex + 1) js1

/-- The first pass of `checkJoinStringBased`: all JOIN structures in order. -/
def buildJoinStructures (lines : List String) : List JoinStructure :=
  (List.range lines.length).filterMap (fun i =>
    let trimmedLine := jsLower (jsTrim (lines.getD i ""))
    if trimmedLine.isEmpty then none
    else
      let joinType := joinTypeOf trimmedLine
      if joinType.isEmpty then none
      else some (analyzeJoinStructure lines i joinType))

/-- The error-reporting pass of `checkJoinStringBased`. -/
def joinStructError : List JoinStructure → Option ValidationResult
  | [] => none
  | js :: rest =>
    if jsIncludes js.joinType "cross" then joinStructError rest
    else if js.hasMissingOnKeyword && js.conditionLineIndex.isSome then
      some { isValid := false,
             errorMessage := some ("JOIN statement missing ON keyword. Add 'ON' before the condition on line " ++
               toString (js.conditionLineIndex.getD 0 + 1) ++ "."),
             lineNumber := js.conditionLineIndex }
    else if !js.hasProperOnClause && !js.hasMissingOnKeyword then
      some { isValid := false,
             errorMessage := some "JOIN statement missing ON clause. Add 'ON table1.column = table2.column' to specify join condition.",
             lineNumber := some js.joinLineIndex }
    else joinStructError rest

/-- `checkJoinStringBased` from invalidJoinRule.ts. -/
def checkJoinStringBased (originalQuery : String) : ValidationResult :=
  match joinStructError (buildJoinStructures (jsLines originalQuery)) with
  | some r => r
  | none => { isValid := true }

/-- `invalidJoinRule`, parameterised by the parse oracle. -/
def invalidJoinRule (p : Parse) : Rule where
  name := "invalid-join"
  description := "Check for invalid JOIN syntax"
  validate := fun sql originalQuery =>
    match p sql with
    | .ok ast =>
      if truthy ast && jsTypeofObject ast && hasField ast "type" &&
          jvIsStr (getField ast "type") "select" then
        .ok (checkJoins originalQuery (getField ast "from"))
      else .ok { isValid := true }
    | .error _ =>
      if jsIncludes (jsLower sql) "join" then .ok (checkJoinStringBased originalQuery)
      else .ok { isValid := true }

/-! ## validation/rules/ambiguousColumnsRule.ts -/

theorem jvOr_leftright_sizeOf {v : Jv}
    (h : truthy (jvOr (getField v "left") (getField v "right")) = true) :
    sizeOf (jvOr (getField v "left") (getField v "right")) < sizeOf v := by
  unfold jvOr at h ⊢
  by_cases hl : truthy (getField v "left") = true
  · rw [if_pos hl] at h ⊢
    exact sizeOf_getField_lt "left" hl
  · rw [if_neg hl] at h ⊢
    exact sizeOf_getField_lt "right" h

/-- The `while (current && current.join)` walk of ambiguousColumnsRule.ts,
counting chained joins and collecting `current.as || current.table` names;
`current = current.left || current.right` steps the chain. -/
def ambWalk (current : Jv) : Nat × List String :=
  if truthy current && truthy (getField current "join") then
    let tbls :=
      if truthy (getField current "table") then
        [jvStr (jvOr (getField current "as") (getField current "table"))]
      else []
    let next := jvOr (getField current "left") (getField current "right")
    if h : truthy next = true then
      let rec' := ambWalk next
      (1 + rec'.1, tbls ++ rec'.2)
    else (1, tbls)
  else (0, [])
termination_by sizeOf current
decreasing_by
  · exact jvOr_leftright_sizeOf h

/-- The per-table contribution of the `fromTables.forEach` body: the pushed
name (when `table.table` is truthy) followed by the join-chain walk. -/
def ambPerTable (table : Jv) : Nat × List String :=
  let base :=
    if truthy (getField table "table") then
      [jvStr (jvOr (getField table "as") (getField table "table"))]
    else []
  let w := ambWalk table
  (w.1, base ++ w.2)

/-- `columns === "*" || (Array.isArray(columns) && columns.some(col => col.expr === "*"))`. -/
def ambStarColumns (columns : Jv) : Bool :=
  jvIsStr columns "*" ||
    (match columns with
     | .jarr xs => xs.any (fun col => jvIsStr (getField col "expr") "*")
     | _ => false)

/-- `/\bfrom\b\s+(\w+)(?:\s+as\s+(\w+))?/i`-style existence test: a
word-bounded keyword followed by whitespace and a word. -/
def kwThenWord (kw : String) (s : String) : Bool :=
  scanWithPrev
    (fun prev l =>
      boundaryBefore prev && listPrefixCI kw.data l &&
        (let r := l.drop kw.data.length
         (match r with
          | c :: _ => !isWordChar c
          | [] => false) &&
           (let ws := r.takeWhile isWs
            !ws.isEmpty &&
              (match r.drop ws.length with
               | d :: _ => isWordChar d
               | [] => false))))
    none s.data

/-- First line whose trimmed lowered text contains `select *` (fuel only
discharges termination). -/
def ambLineLoopF (lines : List String) : Nat → Nat → Option Nat
  | 0, _ => none
  | f + 1, i =>
    if i < lines.length then
      if jsIncludes (jsLower (jsTrim (lines.getD i ""))) "select *" then some i
      else ambLineLoopF lines f (i + 1)
    else none

/-- The loop started at `i`. -/
def ambLineLoop (lines : List String) (i : Nat) : Option Nat :=
  ambLineLoopF lines lines.length i

/-- `ambiguousColumnsRule`, parameterised by the parse oracle. -/
def ambiguousColumnsRule (p : Parse) : Rule where
  name := "ambiguous-columns"
  description := "Check for potentially ambiguous column references"
  validate := fun sql originalQuery =>
    match p sql with
    | .ok ast =>
      if truthy ast && jsTypeofObject ast && hasField ast "type" &&
          jvIsStr (getField ast "type") "select" then
        if truthy (getField ast "from") then
          let fromTables :=
            match jvAsArr (getField ast "from") with
            | some xs => xs
            | none => [getField ast "from"]
          let walked := fromTables.map ambPerTable
          let tableCount := fromTables.length + (walked.map Prod.fst).sum
          let tables := (walked.map Prod.snd).flatten
          if tableCount > 1 && ambStarColumns (getField ast "columns") then
            .ok { isValid := false,
                  errorMessage := some ("Using * with multiple tables (" ++
                    String.intercalate ", " tables ++
                    ") can lead to ambiguous columns. Specify column names explicitly or use table prefixes like 'table1.*, table2.column_name'."),
                  lineNumber :=
                    (findLineWithPattern originalQuery "select *" { ignoreCase := true }).map Prod.fst }
          else .ok { isValid := true }
        else .ok { isValid := true }
      else .ok { isValid := true }
    | .error _ =>
      let sqlLower := jsLower sql
      if kwThenWord "from" sqlLower && kwThenWord "join" sqlLower then
        let selectClause := jsTrim (jsSubstring sql 0 (jsIndexOf (jsLower sql) " from "))
        if jsIncludes (jsLower selectClause) "select *" then
          let viaLines : Option Nat :=
            if jsIncludes originalQuery "\n" then ambLineLoop (jsLines originalQuery) 0 else none
          match viaLines with
          | some i =>
            .ok { isValid := false,
                  errorMessage := some "Using * with multiple tables can lead to ambiguous columns. Specify column names explicitly or use table prefixes.",
                  lineNumber := some i }
          | none =>
            .ok { isValid := false,
                  errorMessage := some "Using * with multiple tables can lead to ambiguous columns. Specify column names explicitly or use table prefixes.",
                  position := some (jsIndexOf (jsLower sql) "select *") }
        else .ok { isValid := true }
      else .ok { isValid := true }

/-! ## validation/rules/invalidGroupByRule.ts -/

/-- `selectAst.groupby && selectAst.groupby.length > 0` (JS `.length` of a
string is its length; other values have none). -/
def jvLenPos (v : Jv) : Bool :=
  match v with
  | .jarr xs => decide (xs.length > 0)
  | .jstr s => decide (s.data.length > 0)
  | _ => false

/-- The column classification loop of the AST branch. -/
def gbClassify (xs : List Jv) : Bool × Bool :=
  xs.foldl
    (fun acc col =>
      if truthy (getField col "expr") && jvIsStr (getField (getField col "expr") "type") "aggr_func" then
        (true, acc.2)
      else if truthy (getField col "expr") && jvIsStr (getField (getField col "expr") "type") "column_ref" then
        (acc.1, true)
      else
        match col with
        | .jstr s => if s == "*" then acc else (acc.1, true)
        | _ => acc)
    (false, false)

/-- The invalid-GROUP-BY diagnostic message. -/
def gbMsg : String :=
  "Mixing aggregate functions with non-aggregated columns requires GROUP BY. Add 'GROUP BY column_name' or use only aggregate functions."

/-- `/(count|sum|avg|min|max|group_concat)\s*\(/i` search. -/
def gbAggRe (s : String) : Bool :=
  anySuffix
    (fun suf =>
      ["count", "sum", "avg", "min", "max", "group_concat"].any (fun kw =>
        listPrefixCI kw.data suf &&
          (let r := (suf.drop kw.length).dropWhile isWs
           match r with
           | '(' :: _ => true
           | _ => false)))
    s.data

/-- `/\bgroup\s+by\b/i` search. -/
def gbGroupByRe (s : String) : Bool :=
  scanWithPrev
    (fun prev l =>
      boundaryBefore prev && listPrefixCI "group".data l &&
        (let r := l.drop 5
         let ws := r.takeWhile isWs
         !ws.isEmpty &&
           (let r2 := r.drop ws.length
            listPrefixCI "by".data r2 &&
              (match r2.drop 2 with
               | [] => true
               | c :: _ => !isWordChar c))))
    none s.data

/-- `/\bcount\s*\(\s*\*\s*\)/i` search. -/
def gbCountStarRe (s : String) : Bool :=
  scanWithPrev
    (fun prev l =>
      boundaryBefore prev && listPrefixCI "count".data l &&
        (let r := (l.drop 5).dropWhile isWs
         match r with
         | '(' :: r2 =>
           (match r2.dropWhile isWs with
            | '*' :: r3 =>
              (match r3.dropWhile isWs with
               | ')' :: _ => true
               | _ => false)
            | _ => false)
         | _ => false))
    none s.data

/-- First line whose trimmed lowered text starts with `select` (fuel only
discharges termination). -/
def gbLineLoopF (lines : List String) : Nat → Nat → Option Nat
  | 0, _ => none
  | f + 1, i =>
    if i < lines.length then
      if jsStartsWith (jsLower (jsTrim (lines.getD i ""))) "select" then some i
      else gbLineLoopF lines f (i + 1)
    else none

/-- The loop started at `i`. -/
def gbLineLoop (lines : List String) (i : Nat) : Option Nat :=
  gbLineLoopF lines lines.length i

/-- `invalidGroupByRule`, parameterised by the parse oracle. -/
def invalidGroupByRule (p : Parse) : Rule where
  name := "invalid-group-by"
  description := "Check for aggregate functions without GROUP BY"
  validate := fun sql originalQuery =>
    match p sql with
    | .ok ast =>
      if truthy ast && jsTypeofObject ast && hasField ast "type" &&
          jvIsStr (getField ast "type") "select" then
        let hasGroupByClause := jvLenPos (getField ast "groupby")
        let cls :=
          match jvAsArr (getField ast "columns") with
          | some xs => gbClassify xs
          | none => (false, false)
        if cls.1 && cls.2 && !hasGroupByClause then
          .ok { isValid := false, errorMessage := some gbMsg,
                lineNumber :=
                  (findLineWithPattern originalQuery "select" { ignoreCase := true }).map Prod.fst }
        else .ok { isValid := true }
      else .ok { isValid := true }
    | .error _ =>
      if gbAggRe sql && !gbGroupByRe sql && !gbCountStarRe sql then
        let columns := jsSplitComma
          (jsSubstring sql (jsIndexOf (jsLower sql) "select" + 6) (jsIndexOf (jsLower sql) " from "))
        if columns.any (fun col => !gbAggRe col) then
          let viaLines : Option Nat :=
            if jsIncludes originalQuery "\n" then gbLineLoop (jsLines originalQuery) 0 else none
          match viaLines with
          | some i => .ok { isValid := false, errorMessage := some gbMsg, lineNumber := some i }
          | none => .ok { isValid := false, errorMessage := some gbMsg,
                          position := some (jsIndexOf (jsLower sql) "select") }
        else .ok { isValid := true }
      else .ok { isValid := true }

/-! ## validation/rules/duplicateAliasesRule.ts -/

/-- The recursive `traverse` of `extractTableAliases`: collect
`(table, alias-lowercased)` for nodes having both `table` and `as`, then
recurse into `left` and `right` (a falsy child contributes nothing, exactly
as the JS `if (!node) return`). -/
def dupTraverse (node : Jv) : List (String × String) :=
  if truthy node = false then []
  else
    let base :=
      if truthy (getField node "table") && truthy (getField node "as") then
        [(jvStr (getField node "table"), jsLower (jvStr (getField node "as")))]
      else []
    let l :=
      if hl : truthy (getField node "left") = true then dupTraverse (getField node "left")
      else []
    let r :=
      if hr : truthy (getField node "right") = true then dupTraverse (getField node "right")
      else []
    base ++ l ++ r
termination_by sizeOf node
decreasing_by
  · exact sizeOf_getField_lt "left" hl
  · exact sizeOf_getField_lt "right" hr

/-- The duplicate-detection loop over `(table, alias)` pairs: the second use
of an alias triggers. -/
def firstDupAlias (seen : List String) : List (String × String) → Option String
  | [] => none
  | ta :: rest =>
    if seen.contains ta.2 then some ta.2
    else firstDupAlias (ta.2 :: seen) rest

/-- The duplicate-alias diagnostic message. -/
def dupMsg (aliasName : String) : String :=
  "Duplicate table alias: " ++ aliasName ++
    ". Each table must have a unique alias. Use different names like '" ++ aliasName ++
    "1', '" ++ aliasName ++ "2' or descriptive names."

/-- One attempted match of `/\b(?:from|join)\s+\w+\s+(?:as\s+)?(\w+)/gi`
at the scan position: `(match length, captured alias)`. -/
def dupMatchAt (prev : Option Char) (l : List Char) : Option (Nat × String) :=
  if !boundaryBefore prev then none
  else
    let kwLen : Option Nat :=
      if listPrefixCI "from".data l then some 4
      else if listPrefixCI "join".data l then some 4
      else none
    match kwLen with
    | none => none
    | some k =>
      let r := l.drop k
      let ws1 := r.takeWhile isWs
      if ws1.isEmpty then none
      else
        let r1 := r.drop ws1.length
        let w1 := r1.takeWhile isWordChar
        if w1.isEmpty then none
        else
          let r2 := r1.drop w1.length
          let ws2 := r2.takeWhile isWs
          if ws2.isEmpty then none
          else
            let r3 := r2.drop ws2.length
            let asTail : Option (Nat × List Char) :=
              if listPrefixCI "as".data r3 then
                let wsA := (r3.drop 2).takeWhile isWs
                if wsA.isEmpty then none
                else
                  let r4 := (r3.drop 2).drop wsA.length
                  let w2 := r4.takeWhile isWordChar
                  if w2.isEmpty then none else some (2 + wsA.length + w2.length, w2)
              else none
            match asTail with
            | some lw =>
              some (k + ws1.length + w1.length + ws2.length + lw.1, jsLower (String.mk lw.2))
            | none =>
              let w2 := r3.takeWhile isWordChar
              if w2.isEmpty then none
              else some (k + ws1.length + w1.length + ws2.length + w2.length,
                         jsLower (String.mk w2))

/-- The `exec` loop of the fallback: first alias seen twice, with the match
index of its second occurrence (fuel, at least the list length, only
discharges termination; every step consumes at least one character). -/
def dupScanF : Nat → Option Char → List Char → Nat → List String → Option (String × Nat)
  | 0, _, _, _, _ => none
  | f + 1, prev, l, pos, seen =>
    match l with
    | [] => none
    | c :: cs =>
      match dupMatchAt prev (c :: cs) with
      | some lenAlias =>
        if seen.contains lenAlias.2 then some (lenAlias.2, pos)
        else
          let len := max 1 lenAlias.1
          dupScanF f (some ((c :: cs).getD (len - 1) c)) ((c :: cs).drop len) (pos + len)
            (lenAlias.2 :: seen)
      | none => dupScanF f (some c) cs (pos + 1) seen

/-- The scan over a whole character list. -/
def dupScan (prev : Option Char) (l : List Char) (pos : Nat) (seen : List String) :
    Option (String × Nat) :=
  dupScanF l.length prev l pos seen

/-- `duplicateAliasesRule`, parameterised by the parse oracle. -/
def duplicateAliasesRule (p : Parse) : Rule where
  name := "duplicate-aliases"
  description := "Check for duplicate table aliases"
  validate := fun sql originalQuery =>
    match p sql with
    | .ok ast =>
      if truthy ast && jsTypeofObject ast && hasField ast "type" &&
          jvIsStr (getField ast "type") "select" then
        if truthy (getField ast "from") then
          let fromTables :=
            match jvAsArr (getField ast "from") with
            | some xs => xs
            | none => [getField ast "from"]
          let tableAliases := fromTables.flatMap dupTraverse
          match firstDupAlias [] tableAliases with
          | some aliasName =>
            .ok { isValid := false, errorMessage := some (dupMsg aliasName),
                  lineNumber :=
                    (findLineWithPattern originalQuery aliasName { ignoreCase := true }).map Prod.fst }
          | none => .ok { isValid := true }
        else .ok { isValid := true }
      else .ok { isValid := true }
    | .error _ =>
      match dupScan none sql.data 0 [] with
      | some aliasPos =>
        if jsIncludes originalQuery "\n" then
          .ok { isValid := false, errorMessage := some (dupMsg aliasPos.1),
                lineNumber := some ((jsLines (jsSubstrTo originalQuery aliasPos.2)).length - 1) }
        else
          .ok { isValid := false, errorMessage := some ("Duplicate table alias: " ++ aliasPos.1),
                position := some (aliasPos.2 : Int) }
      | none => .ok { isValid := true }

/-! ## validation/rules/index.ts -/

/-- `allValidationRules` from rules/index.ts, in source order, parameterised
by the parse oracle shared through `getParser`. -/
def allValidationRules (p : Parse) : List Rule :=
  [missingCommaRule,
   missingFromRule p,
   unclosedParenthesesRule p,
   invalidJoinRule p,
   ambiguousColumnsRule p,
   invalidGroupByRule p,
   invalidOrderByRule,
   duplicateAliasesRule p,
   keywordSpellingRule,
   propertyNameTyposRule,
   batonParameterValidationRule,
   credentialMutualExclusionRule]

/-- Modelled from the spec: the external SQL-to-AST capability
(node-sql-parser) is out of scope (§1, §4.2 of the spec); §4.2 specifies only
`parse(sql) -> AST` or a thrown `ParseError`, with a strict parser that
rejects incomplete or dialect-specific input.  This concrete oracle always
throws, routing every rule to its string fallback, which §4.2 names as the
intended catch path. -/
def astifyModel : Parse := fun _ => .error { message := "Syntax error: unexpected token" }

/-- Concrete inputs of the spec's testable properties. -/
def qBaton : String := "WHERE id = ?<1bad>"

/-- The trailing-comma test input. -/
def qTrailing : String := "SELECT id, name,\nFROM users"

/-- The missing-comma test input. -/
def qMissingComma : String := "SELECT\n  id,\n  name\n  email\nFROM users"

/-- The keyword-typo test input. -/
def qTypo : String := "SELCT * FROM t"

/-- The parse outcomes a real SQL parser can produce on a FROM-less SELECT:
either it throws, or it returns a `select`-typed AST with an absent or empty
`from` — the two cases §4.2 of the spec allows for the black-box parser. -/
def modelsSelectNoFrom (p : Parse) (s : String) : Prop :=
  match p s with
  | .error _ => True
  | .ok ast => astSelectNoFrom ast = true

/-- The textbook Levenshtein recursion (minimum number of single-character
insertions, deletions and substitutions), used as the specification the DP
implementation is checked against. -/
def levSpec : List Char → List Char → Nat
  | [], ys => ys.length
  | _ :: xs, [] => xs.length + 1
  | x :: xs, y :: ys =>
    min (levSpec xs (y :: ys) + 1)
      (min (levSpec (x :: xs) ys + 1) (levSpec xs ys + (if x = y then 0 else 1)))
termination_by xs ys => xs.length + ys.length
decreasing_by
  · simp only [List.length_cons]
    omega
  · simp only [List.length_cons]
    omega
  · simp only [List.length_cons]
    omega

/-- The tail of one DP matrix row, phrased through `levSpec`: for the
processed prefix `adone` (held reversed) and the remaining characters
`arest` of `a`, the entries `matrix[j][|adone|+1 …]` of the row for the
`b`-prefix whose reversal is `bpRev`. -/
def rowOf (bpRev : List Char) : List Char → List Char → List Nat
  | _, [] => []
  | adoneRev, c :: cs => levSpec (c :: adoneRev) bpRev :: rowOf bpRev (c :: adoneRev) cs

/-! ## Dispatcher lemmas -/

/-- Findings with a given tag inside a tagged result list. -/
def filterTag (n : String) (l : List (String × ValidationResult)) :
    List (String × ValidationResult) :=
  l.filter (fun e => e.1 == n)

theorem runRule_name {r : Rule} {nsql orig : String} {e : String × ValidationResult}
    (h : runRule r nsql orig = some e) : e.1 = r.name := by
  unfold runRule at h
  split at h
  · exact absurd h (by simp)
  · split at h
    · exact absurd h (by simp)
    · rw [Option.some_inj] at h
      rw [← h]

theorem filterTag_computeTagged (n : String) (rules : List Rule) (nsql orig : String) :
    filterTag n (computeTagged rules nsql orig)
      = computeTagged (rules.filter (fun r => r.name == n)) nsql orig := by
  induction rules with
  | nil => rfl
  | cons r rest ih =>
    by_cases hn : (r.name == n) = true
    · rw [List.filter_cons_of_pos (p := fun q => Rule.name q == n) hn]
      cases hr : runRule r nsql orig with
      | none =>
        simp only [computeTagged, List.filterMap_cons, hr]
        exact ih
      | some e =>
        have he : e.1 = r.name := runRule_name hr
        simp only [computeTagged, List.filterMap_cons, hr]
        unfold filterTag
        rw [List.filter_cons_of_pos (p := fun q => Prod.fst q == n) (by show (e.1 == n) = true; rw [he]; exact hn)]
        exact congrArg (e :: ·) ih
    · rw [List.filter_cons_of_neg (p := fun q => Rule.name q == n) hn]
      cases hr : runRule r nsql orig with
      | none =>
        simp only [computeTagged, List.filterMap_cons, hr]
        exact ih
      | some e =>
        have he : e.1 = r.name := runRule_name hr
        simp only [computeTagged, List.filterMap_cons, hr]
        unfold filterTag
        rw [List.filter_cons_of_neg (p := fun q => Prod.fst q == n) (by show ¬(e.1 == n) = true; rw [he]; exact hn)]
        exact ih

theorem computeTagged_append (a b : List Rule) (nsql orig : String) :
    computeTagged (a ++ b) nsql orig = computeTagged a nsql orig ++ computeTagged b nsql orig := by
  simp [computeTagged, List.filterMap_append]

theorem validateSqlFresh_eq (rules : List Rule) (sql orig : String) :
    validateSqlFresh rules sql orig
      = (computeTagged rules (normalizeSQL sql) orig).map Prod.snd := rfl

/-! ## Claim theorems -/

/-- C1: the dispatcher is the error boundary.  `validateSql` is total by
construction (the per-rule try/catch is the only place a rule's exception can
surface, and it is caught), and a rule whose `validate` throws contributes
zero results while every other rule in the list is still invoked and its
failing results are still collected: running the dispatcher with the throwing
rule present equals running it with that rule removed. -/
theorem validateSql_rule_isolation (pre post : List Rule) (r : Rule) (sql orig e : String)
    (h : r.validate (normalizeSQL sql) orig = .error e) :
    validateSqlFresh (pre ++ r :: post) sql orig = validateSqlFresh (pre ++ post) sql orig := by
  rw [validateSqlFresh_eq, validateSqlFresh_eq]
  have hr : runRule r (normalizeSQL sql) orig = none := by
    unfold runRule
    rw [h]
  rw [computeTagged_append, computeTagged_append]
  have h2 : computeTagged (r :: post) (normalizeSQL sql) orig
      = computeTagged post (normalizeSQL sql) orig := by
    simp only [computeTagged, List.filterMap_cons, hr]
  rw [h2]

/-- Witness for C1: a throwing rule inserted between two real rules changes
nothing; the sibling missing-comma rule still runs. -/
theorem validateSql_rule_isolation_witness :
    (Rule.mk "boom" "always throws" (fun _ _ => .error "boom")).validate
        (normalizeSQL qMissingComma) qMissingComma = .error "boom"
    ∧ validateSqlFresh
        ([missingCommaRule] ++ Rule.mk "boom" "always throws" (fun _ _ => .error "boom") ::
          [keywordSpellingRule]) qMissingComma qMissingComma
      = validateSqlFresh ([missingCommaRule] ++ [keywordSpellingRule]) qMissingComma qMissingComma :=
  ⟨rfl, validateSql_rule_isolation [missingCommaRule] [keywordSpellingRule] _
    qMissingComma qMissingComma "boom" rfl⟩

/-- C7: `validateSql` is idempotent for any cache state and any rule list: a
second call with identical arguments returns the identical result list (the
cache-hit path), and the uncached computation (empty cache) produces exactly
the list the dispatcher loop computes and the cache then serves. -/
theorem validateSql_idempotent (rules : List Rule) (cache : Cache) (sql orig : String) :
    (validateSql rules (validateSql rules cache sql orig).2 sql orig).1
      = (validateSql rules cache sql orig).1
    ∧ (validateSql rules emptyCache sql orig).1
      = (computeTagged rules (normalizeSQL sql) orig).map Prod.snd := by
  constructor
  · unfold validateSql
    cases h : cache (hashString (normalizeSQL sql ++ orig)) with
    | some rs => simp [h]
    | none => simp [h]
  · rfl

/-- C6: on `SELECT\n  id,\n  name\n  email\nFROM users` the dispatcher
returns exactly one missing-comma finding, at zero-based line 2 (the `name`
line), for every parse oracle. -/
theorem missingComma_concrete_case : ∀ p : Parse,
    filterTag "missing-comma"
        (validateTagged (allValidationRules p) qMissingComma qMissingComma)
      = [("missing-comma",
          { isValid := false,
            errorMessage := some "Missing comma between column expressions. Add a comma at the end of this line to separate columns in SELECT statement.",
            lineNumber := some 2,
            suggestedFix := some { range := { start := { line := 2, character := 6 },
                                              stop := { line := 2, character := 6 } },
                                   newText := "," } })] := by
  intro p
  rw [validateTagged, filterTag_computeTagged]
  rw [show (allValidationRules p).filter (fun q => Rule.name q == "missing-comma")
      = [missingCommaRule] from rfl]
  decide

/-- C4 (code bug): the trailing-comma rule is implemented and on the spec's
input produces exactly the claimed finding at line 0, but it is absent from
`allValidationRules` in rules/index.ts, so `validateSql` returns no
trailing-comma finding for any parse oracle — contradicting the repository's
own README (rule 13 of "14 comprehensive validation rules"). -/
theorem trailingCommaRule_unregistered : ∀ p : Parse,
    filterTag "trailing-comma" (validateTagged (allValidationRules p) qTrailing qTrailing) = []
    ∧ trailingCommaRule.validate (normalizeSQL qTrailing) qTrailing
      = .ok { isValid := false,
              errorMessage := some "Trailing comma found after last column in SELECT statement. Remove the comma before FROM clause.",
              lineNumber := some 0 } := by
  intro p
  constructor
  · rw [validateTagged, filterTag_computeTagged]
    rw [show (allValidationRules p).filter (fun q => Rule.name q == "trailing-comma")
        = [] from rfl]
    rfl
  · rfl

/-- C2 (code bug): the dispatcher normalizes the SQL before running the rules,
which rewrites every `?<name>` token to `?`; the baton-parameter rule
therefore sees no parameter tokens and `validateSql` returns no
baton-parameter-validation finding on `WHERE id = ?<1bad>` for any parse
oracle — although the rule itself, applied to the raw query as its own code
expects, flags exactly the invalid leading-digit identifier. -/
theorem batonParameterRule_unreachable : ∀ p : Parse,
    filterTag "baton-parameter-validation"
        (validateTagged (allValidationRules p) qBaton qBaton) = []
    ∧ batonParameterValidationRule.validate qBaton qBaton
      = .ok { isValid := false,
              errorMessage := some "Invalid Baton parameter name '1bad'. Use only letters, numbers, and underscores. Must start with letter or underscore.",
              position := some 11,
              lineNumber := some 1 } := by
  intro p
  constructor
  · rw [validateTagged, filterTag_computeTagged]
    rw [show (allValidationRules p).filter (fun q => Rule.name q == "baton-parameter-validation")
        = [batonParameterValidationRule] from rfl]
    decide
  · rfl

/-- C8: for any oracle, `SELECT CURRENT_TIMESTAMP` and `SELECT 1+1` yield no
missing-from finding; and under any oracle that parses `SELECT id` the way a
SQL parser can (throw, or a select AST without FROM), `SELECT id` yields
exactly one missing-from finding. -/
theorem missingFrom_exemptions (p : Parse) (h : modelsSelectNoFrom p "SELECT id") :
    filterTag "missing-from"
        (validateTagged (allValidationRules p) "SELECT CURRENT_TIMESTAMP" "SELECT CURRENT_TIMESTAMP") = []
    ∧ filterTag "missing-from"
        (validateTagged (allValidationRules p) "SELECT 1+1" "SELECT 1+1") = []
    ∧ filterTag "missing-from"
        (validateTagged (allValidationRules p) "SELECT id" "SELECT id")
      = [("missing-from",
          { isValid := false, errorMessage := some mfMsg, lineNumber := some 1 })] := by
  refine ⟨?_, ?_, ?_⟩
  · rw [validateTagged, filterTag_computeTagged]
    rw [show (allValidationRules p).filter (fun q => Rule.name q == "missing-from")
        = [missingFromRule p] from rfl]
    rw [show normalizeSQL "SELECT CURRENT_TIMESTAMP" = "SELECT CURRENT_TIMESTAMP" from rfl]
    simp only [computeTagged, List.filterMap_cons, List.filterMap_nil, runRule, missingFromRule]
    cases hp : p "SELECT CURRENT_TIMESTAMP" with
    | error e => simp only [hp]; decide
    | ok ast =>
      simp only [hp]
      by_cases hA : astSelectNoFrom ast = true
      · simp only [hA]; decide
      · simp only [hA]; decide
  · rw [validateTagged, filterTag_computeTagged]
    rw [show (allValidationRules p).filter (fun q => Rule.name q == "missing-from")
        = [missingFromRule p] from rfl]
    rw [show normalizeSQL "SELECT 1+1" = "SELECT 1+1" from rfl]
    simp only [computeTagged, List.filterMap_cons, List.filterMap_nil, runRule, missingFromRule]
    cases hp : p "SELECT 1+1" with
    | error e => simp only [hp]; decide
    | ok ast =>
      simp only [hp]
      by_cases hA : astSelectNoFrom ast = true
      · simp only [hA]; decide
      · simp only [hA]; decide
  · rw [validateTagged, filterTag_computeTagged]
    rw [show (allValidationRules p).filter (fun q => Rule.name q == "missing-from")
        = [missingFromRule p] from rfl]
    rw [show normalizeSQL "SELECT id" = "SELECT id" from rfl]
    simp only [computeTagged, List.filterMap_cons, List.filterMap_nil, runRule, missingFromRule]
    unfold modelsSelectNoFrom at h
    cases hp : p "SELECT id" with
    | error e => simp only [hp]; decide
    | ok ast =>
      rw [hp] at h
      simp only [hp, h]
      decide

/-- Witness for C8: the always-throwing oracle satisfies the parse
hypothesis, and the `SELECT id` case fires as claimed. -/
theorem missingFrom_exemptions_witness :
    modelsSelectNoFrom astifyModel "SELECT id"
    ∧ filterTag "missing-from"
        (validateTagged (allValidationRules astifyModel) "SELECT id" "SELECT id")
      = [("missing-from",
          { isValid := false, errorMessage := some mfMsg, lineNumber := some 1 })] :=
  ⟨trivial, (missingFrom_exemptions astifyModel trivial).2.2⟩

/-- C5 counterexample: on the single-line query `SELECT id` (one line, so the
only zero-based index into `originalQuery.split('\n')` is 0) the full
dispatcher returns one missing-from finding whose `lineNumber` is 1 —
`findLineWithPattern` reports `i + 1`, not the zero-based index the claim
asserts.  The out-of-scope parser is instantiated with the always-throwing
oracle the spec's §4.2 permits; a select-without-FROM parse takes the same
branch (`missingFrom_exemptions`). -/
theorem lineNumber_not_zero_based :
    validateSqlFresh (allValidationRules astifyModel) "SELECT id" "SELECT id"
      = [{ isValid := false, errorMessage := some mfMsg, lineNumber := some 1 }]
    ∧ (jsLines "SELECT id").length = 1 := by
  constructor
  · rfl
  · rfl

/-- C5 amended: a `lineNumber` produced through `findLineWithPattern` (the
missing-from, invalid-join, invalid-group-by, duplicate-aliases and
baton-parameter rules) is ONE-based: it returns `i + 1` for the zero-based
index `i` of the first matching line. -/
theorem findLineWithPattern_one_based :
    ∀ (text pattern : String) (opts : FindOpts) (n : Nat) (ln : String),
      findLineWithPattern text pattern opts = some (n, ln) →
      1 ≤ n ∧ n - 1 < (jsLines text).length ∧ (jsLines text).getD (n - 1) "" = ln := by
  have go : ∀ (pat : String) (opts : FindOpts) (ls : List String) (i n : Nat) (ln : String),
      flwpGo pat opts i ls = some (n, ln) →
      i + 1 ≤ n ∧ n - 1 - i < ls.length ∧ ls.getD (n - 1 - i) "" = ln := by
    intro pat opts ls
    induction ls with
    | nil => intro i n ln h; simp [flwpGo] at h
    | cons l rest ih =>
      intro i n ln h
      unfold flwpGo at h
      split at h
      · rw [Option.some_inj] at h
        cases h
        refine ⟨Nat.le_refl _, ?_, ?_⟩
        · simp
        · simp
      · have := ih (i + 1) n ln h
        refine ⟨by omega, ?_, ?_⟩
        · simp only [List.length_cons]
          omega
        · have hidx : n - 1 - i = (n - 1 - (i + 1)) + 1 := by omega
          rw [hidx, List.getD_cons_succ]
          exact this.2.2
  intro text pattern opts n ln h
  have := go (if opts.ignoreWhitespace then jsCollapseWs pattern else pattern) opts
    (jsLines text) 0 n ln h
  exact ⟨this.1, by have := this.2.1; omega, by have := this.2.2; simpa using this⟩

/-- Witness for C5's amended claim at a concrete call. -/
theorem findLineWithPattern_one_based_witness :
    findLineWithPattern "SELECT id" "select" { ignoreCase := true } = some (1, "SELECT id")
    ∧ (1 ≤ 1 ∧ 1 - 1 < (jsLines "SELECT id").length
        ∧ (jsLines "SELECT id").getD (1 - 1) "" = "SELECT id") :=
  ⟨rfl, findLineWithPattern_one_based "SELECT id" "select" { ignoreCase := true } 1 "SELECT id" rfl⟩

/-- C9 counterexample: on the single-line input `SELCT * FROM t` the
dispatcher returns no finding at all — the keyword-spelling rule returns
early on input without a newline (the out-of-scope parser instantiated with
the always-throwing oracle; the keyword-spelling rule itself never consults
the parser). -/
theorem keywordSpelling_single_line_silent :
    validateSqlFresh (allValidationRules astifyModel) qTypo qTypo = [] := by
  rfl

/-- C9 amended: on a multi-line input whose first line is `SELCT * FROM t`,
the dispatcher returns exactly one keyword-spelling finding suggesting
SELECT, for every parse oracle. -/
theorem keywordSpelling_multiline_case : ∀ p : Parse,
    filterTag "keyword-spelling"
        (validateTagged (allValidationRules p) "SELCT * FROM t\n" "SELCT * FROM t\n")
      = [("keyword-spelling",
          { isValid := false,
            errorMessage := some "Possible typo in SQL keyword: \"SELCT\" - Did you mean \"SELECT\"?",
            lineNumber := some 0 })] := by
  intro p
  rw [validateTagged, filterTag_computeTagged]
  rw [show (allValidationRules p).filter (fun q => Rule.name q == "keyword-spelling")
      = [keywordSpellingRule] from rfl]
  decide

/-- C3 counterexample: `normalizeSQL` is not idempotent — replacing the
leftmost token of `?<x><y>` yields `?<y>`, which a second pass rewrites
further to `?`. -/
theorem normalizeSQL_not_idempotent :
    normalizeSQL "?<x><y>" = "?<y>"
    ∧ normalizeSQL (normalizeSQL "?<x><y>") = "?"
    ∧ normalizeSQL (normalizeSQL "?<x><y>") ≠ normalizeSQL "?<x><y>" := by
  refine ⟨rfl, rfl, ?_⟩
  decide

theorem tokenTail_length {cs tail : List Char} (h : tokenTail cs = some tail) :
    tail.length < cs.length := by
  cases cs with
  | nil => simp [tokenTail] at h
  | cons c rest =>
    simp only [tokenTail] at h
    split at h
    · split at h
      · simp at h
      · split at h
        next heq =>
          rw [Option.some_inj] at h
          subst h
          have h2 := List.length_drop (rest.takeWhile (fun d => d ≠ '>')).length rest
          rw [heq] at h2
          simp only [List.length_cons] at h2 ⊢
          omega
        · simp at h
    · simp at h

theorem normSqlAuxF_mono : ∀ (f g : Nat) (l : List Char),
    l.length ≤ f → l.length ≤ g → normSqlAuxF f l = normSqlAuxF g l := by
  intro f
  induction f with
  | zero =>
    intro g l hf _
    have : l = [] := List.eq_nil_of_length_eq_zero (Nat.le_zero.mp hf)
    subst this
    cases g <;> rfl
  | succ f ih =>
    intro g l hf hg
    cases l with
    | nil => cases g <;> rfl
    | cons c cs =>
      cases g with
      | zero => simp at hg
      | succ g =>
        simp only [List.length_cons] at hf hg
        simp only [normSqlAuxF]
        by_cases hc : c = '?'
        · rw [if_pos hc, if_pos hc]
          cases ht : tokenTail cs with
          | some tail =>
            have hlt := tokenTail_length ht
            show '?' :: normSqlAuxF f tail = '?' :: normSqlAuxF g tail
            rw [ih g tail (by omega) (by omega)]
          | none =>
            show c :: normSqlAuxF f cs = c :: normSqlAuxF g cs
            rw [ih g cs (by omega) (by omega)]
        · rw [if_neg hc, if_neg hc]
          show c :: normSqlAuxF f cs = c :: normSqlAuxF g cs
          rw [ih g cs (by omega) (by omega)]

theorem normSqlAux_cons_eq (c : Char) (cs : List Char) :
    normSqlAux (c :: cs)
      = (if c = '?' then
          match tokenTail cs with
          | some tail => '?' :: normSqlAux tail
          | none => c :: normSqlAux cs
         else c :: normSqlAux cs) := by
  show normSqlAuxF (cs.length + 1) (c :: cs) = _
  simp only [normSqlAuxF]
  by_cases hc : c = '?'
  · rw [if_pos hc, if_pos hc]
    cases ht : tokenTail cs with
    | some tail =>
      have hlt := tokenTail_length ht
      show '?' :: normSqlAuxF cs.length tail = '?' :: normSqlAux tail
      rw [normSqlAuxF_mono cs.length tail.length tail (by omega) (by omega)]
      rfl
    | none =>
      show c :: normSqlAuxF cs.length cs = c :: normSqlAux cs
      rfl
  · rw [if_neg hc, if_neg hc]
    show c :: normSqlAuxF cs.length cs = c :: normSqlAux cs
    rfl

theorem takeWhile_wellformed_name : ∀ (nm rest : List Char), (∀ c ∈ nm, c ≠ '>') →
    (nm ++ '>' :: rest).takeWhile (fun d => d ≠ '>') = nm := by
  intro nm rest h
  induction nm with
  | nil => simp [List.takeWhile]
  | cons c t ih =>
    have hc : c ≠ '>' := h c (List.mem_cons_self c t)
    simp only [List.cons_append, List.takeWhile_cons]
    rw [if_pos (by simpa using hc)]
    rw [ih (fun d hd => h d (List.mem_cons_of_mem c hd))]

theorem tokenTail_wellformed (nm rest : List Char) (h1 : nm ≠ [])
    (h2 : ∀ c ∈ nm, c ≠ '>') :
    tokenTail ('<' :: (nm ++ '>' :: rest)) = some rest := by
  simp only [tokenTail, if_pos rfl]
  rw [takeWhile_wellformed_name nm rest h2]
  have hne : nm.isEmpty = false := by
    cases nm with
    | nil => exact absurd rfl h1
    | cons a t => rfl
  rw [hne]
  simp only [Bool.false_eq_true, if_false]
  rw [List.drop_left nm ('>' :: rest)]
  simp

/-- C3 amended: `normalizeSQL` is the left-to-right scan that replaces each
named-parameter token `?<name>` found at the scan position with the single
character `?` and copies every other character unchanged (the idempotence
part of the claim is false: `normalizeSQL_not_idempotent`). -/
theorem normalizeSQL_scan_spec :
    (∀ (nm rest : List Char), nm ≠ [] → (∀ c ∈ nm, c ≠ '>') →
        normSqlAux ('?' :: '<' :: (nm ++ '>' :: rest)) = '?' :: normSqlAux rest)
    ∧ (∀ (c : Char) (cs : List Char), ¬(c = '?' ∧ (tokenTail cs).isSome = true) →
        normSqlAux (c :: cs) = c :: normSqlAux cs) := by
  constructor
  · intro nm rest h1 h2
    rw [normSqlAux_cons_eq]
    rw [if_pos rfl]
    rw [tokenTail_wellformed nm rest h1 h2]
  · intro c cs h
    rw [normSqlAux_cons_eq]
    by_cases hc : c = '?'
    · rw [if_pos hc]
      cases ht : tokenTail cs with
      | some tail => exact absurd ⟨hc, by rw [ht]; rfl⟩ h
      | none => rfl
    · rw [if_neg hc]

/-- Witness for C3's amended claim at concrete values: the token `?<ab>` is
replaced and a non-token character is copied. -/
theorem normalizeSQL_scan_spec_witness :
    (['a', 'b'] ≠ ([] : List Char) ∧ (∀ c ∈ ['a', 'b'], c ≠ '>')
      ∧ normSqlAux ('?' :: '<' :: (['a', 'b'] ++ '>' :: ['z'])) = '?' :: normSqlAux ['z'])
    ∧ (¬('x' = '?' ∧ (tokenTail ['y']).isSome = true)
      ∧ normSqlAux ('x' :: ['y']) = 'x' :: normSqlAux ['y']) :=
  ⟨⟨by decide, by decide,
     normalizeSQL_scan_spec.1 ['a', 'b'] ['z'] (by decide) (by decide)⟩,
   ⟨by decide, normalizeSQL_scan_spec.2 'x' ['y'] (by decide)⟩⟩

theorem levSpec_nil_left (ys : List Char) : levSpec [] ys = ys.length := by
  simp [levSpec]

theorem levSpec_nil_right (xs : List Char) : levSpec xs [] = xs.length := by
  cases xs <;> simp [levSpec]

theorem levSpec_cons_cons (x y : Char) (xs ys : List Char) :
    levSpec (x :: xs) (y :: ys)
      = min (levSpec xs (y :: ys) + 1)
          (min (levSpec (x :: xs) ys + 1) (levSpec xs ys + (if x = y then 0 else 1))) := by
  simp [levSpec]

set_option maxHeartbeats 2000000 in
theorem levSpec_append_append : ∀ (p q : List Char) (x y : Char),
    levSpec (p ++ [x]) (q ++ [y])
      = min (levSpec p (q ++ [y]) + 1)
          (min (levSpec (p ++ [x]) q + 1) (levSpec p q + (if x = y then 0 else 1))) := by
  intro p
  induction p with
  | nil =>
    intro q
    induction q with
    | nil =>
      intro x y
      simp only [List.nil_append]
      rw [levSpec_cons_cons]
    | cons b bs ihq =>
      intro x y
      simp only [List.nil_append, List.cons_append] at ihq ⊢
      rw [levSpec_cons_cons x b [] (bs ++ [y]), ihq, levSpec_cons_cons x b [] bs]
      simp only [levSpec_nil_left, List.length_cons, List.length_append, List.length_nil]
      generalize (if x = y then 0 else 1 : Nat) = ixy
      generalize (if x = b then 0 else 1 : Nat) = ixb
      omega
  | cons a as ihp =>
    intro q
    induction q with
    | nil =>
      intro x y
      simp only [List.nil_append, List.cons_append]
      have h1 := ihp [] x y
      simp only [List.nil_append] at h1
      rw [levSpec_cons_cons a y (as ++ [x]) [], h1, levSpec_cons_cons a y as []]
      simp only [levSpec_nil_right, levSpec_nil_left, List.length_cons, List.length_append,
        List.length_nil]
      generalize (if x = y then 0 else 1 : Nat) = ixy
      generalize (if a = y then 0 else 1 : Nat) = iay
      omega
    | cons b bs ihq =>
      intro x y
      simp only [List.cons_append] at ihq ⊢
      have h1 := ihp (b :: bs) x y
      have h2 := ihp bs x y
      simp only [List.cons_append] at h1 h2
      rw [levSpec_cons_cons a b (as ++ [x]) (bs ++ [y]), h1, ihq x y, h2,
        levSpec_cons_cons a b as (bs ++ [y]), levSpec_cons_cons a b (as ++ [x]) bs,
        levSpec_cons_cons a b as bs]
      generalize (if x = y then 0 else 1 : Nat) = ixy
      generalize (if a = b then 0 else 1 : Nat) = iab
      simp only [← Nat.add_min_add_right]
      simp only [Nat.add_assoc, Nat.add_comm, Nat.add_left_comm,
        Nat.min_assoc, Nat.min_comm, Nat.min_left_comm]

theorem levSpec_reverse : ∀ (p q : List Char),
    levSpec p.reverse q.reverse = levSpec p q := by
  intro p
  induction p with
  | nil =>
    intro q
    simp [levSpec_nil_left, List.length_reverse]
  | cons a as ihp =>
    intro q
    induction q with
    | nil =>
      simp only [List.reverse_nil]
      rw [levSpec_nil_right, levSpec_nil_right, List.length_reverse]
    | cons b bs ihq =>
      rw [List.reverse_cons, List.reverse_cons, levSpec_append_append as.reverse bs.reverse a b]
      rw [show bs.reverse ++ [b] = (b :: bs).reverse from (List.reverse_cons b bs).symm]
      rw [show as.reverse ++ [a] = (a :: as).reverse from (List.reverse_cons a as).symm]
      rw [ihp (b :: bs), ihq, ihp bs, levSpec_cons_cons]

theorem levSpec_comm : ∀ (p q : List Char), levSpec p q = levSpec q p := by
  intro p
  induction p with
  | nil =>
    intro q
    rw [levSpec_nil_left, levSpec_nil_right]
  | cons a as ihp =>
    intro q
    induction q with
    | nil => rw [levSpec_nil_left, levSpec_nil_right]
    | cons b bs ihq =>
      rw [levSpec_cons_cons a b as bs, levSpec_cons_cons b a bs as]
      rw [ihp (b :: bs), ihp bs, ← ihq]
      have hind : (if a = b then 0 else 1) = (if b = a then 0 else 1) := by
        by_cases h : a = b
        · rw [if_pos h, if_pos h.symm]
        · rw [if_neg h, if_neg (fun hba => h hba.symm)]
      rw [hind]
      omega

theorem levSpec_eq_zero_iff : ∀ (p q : List Char), levSpec p q = 0 ↔ p = q := by
  intro p
  induction p with
  | nil =>
    intro q
    rw [levSpec_nil_left]
    cases q <;> simp
  | cons a as ihp =>
    intro q
    cases q with
    | nil =>
      rw [levSpec_nil_right]
      simp
    | cons b bs =>
      rw [levSpec_cons_cons]
      constructor
      · intro h
        have hz : levSpec as bs + (if a = b then 0 else 1) = 0 := by omega
        by_cases hab : a = b
        · rw [if_pos hab] at hz
          have := (ihp bs).mp (by omega)
          rw [hab, this]
        · rw [if_neg hab] at hz
          omega
      · intro h
        cases h
        have hz := (ihp as).mpr rfl
        rw [if_pos rfl]
        omega

theorem buildRow_eq : ∀ (arest adoneRev bpRev : List Char) (bc : Char),
    buildRow bc arest (levSpec adoneRev bpRev) (levSpec adoneRev (bc :: bpRev))
        (rowOf bpRev adoneRev arest)
      = rowOf (bc :: bpRev) adoneRev arest := by
  intro arest
  induction arest with
  | nil => intro adoneRev bpRev bc; rfl
  | cons c cs ih =>
    intro adoneRev bpRev bc
    simp only [rowOf, buildRow]
    rw [← levSpec_cons_cons c bc adoneRev bpRev]
    exact congrArg (levSpec (c :: adoneRev) (bc :: bpRev) :: ·) (ih (c :: adoneRev) bpRev bc)

theorem rowOf_nil : ∀ (arest adoneRev : List Char),
    rowOf [] adoneRev arest = List.range' (adoneRev.length + 1) arest.length := by
  intro arest
  induction arest with
  | nil => intro adoneRev; rfl
  | cons c cs ih =>
    intro adoneRev
    simp only [rowOf, List.length_cons]
    rw [levSpec_nil_right, List.range'_succ, ih (c :: adoneRev)]
    simp

theorem levLoop_inv : ∀ (brest bpRev a : List Char),
    levLoop a brest (levSpec [] bpRev :: rowOf bpRev [] a) (bpRev.length + 1)
      = levSpec [] (brest.reverse ++ bpRev) :: rowOf (brest.reverse ++ bpRev) [] a := by
  intro brest
  induction brest with
  | nil => intro bpRev a; simp [levLoop]
  | cons bc rest ih =>
    intro bpRev a
    simp only [levLoop, levRowStep]
    have hj : bpRev.length + 1 = levSpec [] (bc :: bpRev) := by
      rw [levSpec_nil_left, List.length_cons]
    rw [hj, buildRow_eq a [] bpRev bc]
    rw [show levSpec [] (bc :: bpRev) + 1 = (bc :: bpRev).length + 1 from by
      rw [levSpec_nil_left]]
    rw [ih (bc :: bpRev) a]
    rw [show rest.reverse ++ bc :: bpRev = (bc :: rest).reverse ++ bpRev from by
      simp [List.reverse_cons, List.append_assoc]]

theorem rowOf_getD_last : ∀ (arest adoneRev bpRev : List Char), arest ≠ [] →
    (rowOf bpRev adoneRev arest).getD (arest.length - 1) 0
      = levSpec (arest.reverse ++ adoneRev) bpRev := by
  intro arest
  induction arest with
  | nil => intro _ _ h; exact absurd rfl h
  | cons c cs ih =>
    intro adoneRev bpRev _
    by_cases hcs : cs = []
    · subst hcs
      simp [rowOf]
    · simp only [rowOf, List.length_cons]
      rw [show cs.length + 1 - 1 = (cs.length - 1) + 1 from by
        have := List.length_pos.mpr hcs
        omega]
      rw [List.getD_cons_succ, ih (c :: adoneRev) bpRev hcs]
      rw [show (c :: cs).reverse ++ adoneRev = cs.reverse ++ (c :: adoneRev) from by
        simp [List.reverse_cons, List.append_assoc]]

/-- C10: the DP implementation computes the textbook Levenshtein distance
(the prefix table is `levSpec` applied to reversed prefixes, and `levSpec`
is reversal-invariant); consequently it is symmetric, zero exactly on equal
strings, and degenerates to the other argument's length on empty input. -/
theorem levenshteinDistance_correct (a b : String) :
    levenshteinDistance a b = levSpec a.data b.data
    ∧ levenshteinDistance a b = levenshteinDistance b a
    ∧ (levenshteinDistance a b = 0 ↔ a = b)
    ∧ levenshteinDistance "" b = b.data.length
    ∧ levenshteinDistance a "" = a.data.length := by
  have key : ∀ (u v : String), levenshteinDistance u v = levSpec u.data v.data := by
    intro u v
    unfold levenshteinDistance
    by_cases hu : u.data.length = 0
    · rw [if_pos hu]
      rw [List.eq_nil_of_length_eq_zero hu, levSpec_nil_left]
    · rw [if_neg hu]
      by_cases hv : v.data.length = 0
      · rw [if_pos hv]
        rw [List.eq_nil_of_length_eq_zero hv, levSpec_nil_right]
      · rw [if_neg hv]
        have hrange : List.range (u.data.length + 1) = levSpec [] [] :: rowOf [] [] u.data := by
          rw [rowOf_nil u.data [], levSpec_nil_left, List.range_eq_range',
            List.range'_succ]
          simp
        rw [hrange]
        have hloop := levLoop_inv v.data [] u.data
        simp only [List.append_nil, List.length_nil] at hloop
        rw [hloop]
        have hne : u.data ≠ [] := fun h => hu (by rw [h]; rfl)
        rw [show u.data.length = (u.data.length - 1) + 1 from by
          have := List.length_pos.mpr hne
          omega]
        rw [List.getD_cons_succ, rowOf_getD_last u.data [] v.data.reverse hne,
          List.append_nil, levSpec_reverse]
  refine ⟨key a b, ?_, ?_, ?_, ?_⟩
  · rw [key a b, key b a, levSpec_comm]
  · rw [key a b, levSpec_eq_zero_iff]
    constructor
    · intro h
      cases a with
      | mk la =>
        cases b with
        | mk lb => exact congrArg String.mk h
    · intro h
      rw [h]
  · rw [key "" b, levSpec_nil_left]
  · rw [key a "", levSpec_nil_right]

/-- Witness for C10 at concrete strings. -/
theorem levenshteinDistance_correct_witness :
    levenshteinDistance "kitten" "sitting" = levenshteinDistance "sitting" "kitten"
    ∧ levenshteinDistance "baton" "baton" = 0
    ∧ levenshteinDistance "" "sql" = ("sql" : String).data.length :=
  ⟨(levenshteinDistance_correct "kitten" "sitting").2.1,
   (levenshteinDistance_correct "baton" "baton").2.2.1.mpr rfl,
   (levenshteinDistance_correct "x" "sql").2.2.2.1⟩

end BatonSQL
